import Mathlib

/-!
Verification development for the bodega document store (src/bodega/soda).

The object store is modelled as an association list from S3 keys to objects
(content plus a tag map).  Python dicts are modelled as association lists with
first-match lookup and in-place replacing insert, which reproduces dict
semantics (unique keys, insertion order preserved).  Timestamps are opaque
strings where the code only stores them, and integers (minutes) where the code
compares them; ISO-8601 parsing is abstracted by a parameter parseTs.
String manipulation (split on a slash, startswith, endswith, strip, int(...))
is modelled by explicit functions on the character list of a string, mirroring
the Python string operations used by the source.
-/

namespace Bodega

/-- A tag map or metadata dict: association list with Python-dict semantics. -/
abbrev TagMap := List (String × String)

/-- First-match lookup, models dict.get. -/
def tmGet (m : TagMap) (k : String) : Option String :=
  match m with
  | [] => none
  | (k', v) :: rest => if k' = k then some v else tmGet rest k

/-- Models dict assignment: replace in place if the key is present, append otherwise. -/
def tmInsert (m : TagMap) (k v : String) : TagMap :=
  match m with
  | [] => [(k, v)]
  | (k', v') :: rest => if k' = k then (k', v) :: rest else (k', v') :: tmInsert rest k v

/-- An S3 object: body plus tag set. -/
structure S3Object where
  content : String
  tags : TagMap
deriving Repr, DecidableEq

/-- The backing object store: association list from key to object, in listing order. -/
abbrev Store := List (String × S3Object)

/-- First-match lookup of an object by key. -/
def lookupObj (s : Store) (k : String) : Option S3Object :=
  match s with
  | [] => none
  | (k', o) :: rest => if k' = k then some o else lookupObj rest k

/-- Models s3_ops.object_exists (head_object based existence check). -/
def object_exists (s : Store) (k : String) : Bool :=
  (lookupObj s k).isSome

/-- Models s3_ops.get_object_tags; none models the NoSuchKey error. -/
def get_object_tags (s : Store) (k : String) : Option TagMap :=
  (lookupObj s k).map (fun o => o.tags)

/-- Models s3_ops.put_object_tags: replaces the entire tag set of an existing object. -/
def put_object_tags (s : Store) (k : String) (tags : TagMap) : Store :=
  match s with
  | [] => []
  | (k', o) :: rest =>
    if k' = k then (k', { o with tags := tags }) :: put_object_tags rest k tags
    else (k', o) :: put_object_tags rest k tags

/-- Overwrite the object stored under an existing key. -/
def overwriteObj (s : Store) (k : String) (o : S3Object) : Store :=
  match s with
  | [] => []
  | (k', o') :: rest =>
    if k' = k then (k', o) :: overwriteObj rest k o
    else (k', o') :: overwriteObj rest k o

/-- Models s3_ops.put_object_content: overwrite in place, or append a new object. -/
def put_object_content (s : Store) (k : String) (content : String) (tags : TagMap) : Store :=
  if (lookupObj s k).isSome then overwriteObj s k ⟨content, tags⟩
  else s ++ [(k, ⟨content, tags⟩)]

/-- Models s3_ops.delete_object. -/
def delete_object (s : Store) (k : String) : Store :=
  match s with
  | [] => []
  | (k', o) :: rest =>
    if k' = k then delete_object rest k
    else (k', o) :: delete_object rest k

/-- Models Python s.startswith(pre) on the character lists. -/
def strStartsWith (s pre : String) : Bool :=
  pre.data.isPrefixOf s.data

/-- Models Python s.endswith(suf) on the character lists. -/
def strEndsWith (s suf : String) : Bool :=
  suf.data.isSuffixOf s.data

/-- Models the s3_ops listing operation list_objects_with_prefix: keys in listing order, truncated at maxKeys
(the source paginates but stops once max_keys objects are collected; default 1000). -/
def list_objects_with_prefix (s : Store) (pre : String) (maxKeys : Nat) : List String :=
  ((s.filter (fun p => strStartsWith p.1 pre)).map (fun p => p.1)).take maxKeys

/-- Models s3_ops.list_objects_with_tags (no tag filters, as used by the state manager):
pairs each listed key with its tags, skipping objects that have disappeared. -/
def list_objects_with_tags (s : Store) (pre : String) : List (String × TagMap) :=
  ( list_objects_with_prefix s pre 1000).filterMap
    (fun k => (lookupObj s k).map (fun o => (k, o.tags)))

/-- Models Python key.split(sep-char) on character lists, including empty pieces. -/
def splitChars : List Char → List (List Char)
  | [] => [[]]
  | c :: cs =>
    match splitChars cs with
    | [] => [[c]]
    | g :: gs => if c = '/' then [] :: g :: gs else (c :: g) :: gs

/-- Models key.split on the slash character, producing strings. -/
def splitKey (k : String) : List String :=
  (splitChars k.data).map String.mk

/-- Models Python s.strip() (used on the current-version pointer content). -/
def strTrim (s : String) : String :=
  String.mk (((s.data.dropWhile Char.isWhitespace).reverse.dropWhile Char.isWhitespace).reverse)

/-- Value of an ASCII digit string, used to model Python int(s) on digit strings. -/
def digitsVal (l : List Char) : Nat :=
  l.foldl (fun acc c => 10 * acc + (c.toNat - 48)) 0

/-- Models the sort key int(v[1:]) if v[1:].isdigit() else 0 from list_document_versions. -/
def versionSortKey (v : String) : Nat :=
  match v.data with
  | [] => 0
  | _ :: rest => if rest ≠ [] ∧ rest.all Char.isDigit then digitsVal rest else 0

/-- True when the string contains no slash (so it occupies one key-path segment). -/
def noSlash (s : String) : Bool :=
  s.data.all (fun c => c ≠ '/')

/-- Canonical version strings as produced by the store itself: a v followed by digits. -/
def validVersionString (v : String) : Bool :=
  match v.data with
  | [] => false
  | c :: rest => c = 'v' ∧ rest ≠ [] ∧ rest.all Char.isDigit

/-- The document state enumeration from document_states.DocumentState. -/
inductive DocumentState
  | raw | processing | processed | failed | draft | final | archived
deriving DecidableEq, Repr

/-- The stored string value of a state. -/
def DocumentState.value : DocumentState → String
  | .raw => "raw"
  | .processing => "processing"
  | .processed => "processed"
  | .failed => "failed"
  | .draft => "draft"
  | .final => "final"
  | .archived => "archived"

/-- Models DocumentState(tag): parse the stage string, none models ValueError. -/
def parseDocumentState (s : String) : Option DocumentState :=
  if s = "raw" then some .raw
  else if s = "processing" then some .processing
  else if s = "processed" then some .processed
  else if s = "failed" then some .failed
  else if s = "draft" then some .draft
  else if s = "final" then some .final
  else if s = "archived" then some .archived
  else none

/-- The VALID_TRANSITIONS table of document_states.py, as from-to pairs. -/
def VALID_TRANSITIONS : List (DocumentState × DocumentState) :=
  [(.raw, .processing),
   (.processing, .processed),
   (.processing, .failed),
   (.failed, .raw),
   (.failed, .processing),
   (.draft, .final),
   (.final, .archived),
   (.archived, .final),
   (.processed, .raw)]

/-- Models DocumentStateManager._is_valid_transition via the transition map. -/
def is_valid_transition (f t : DocumentState) : Bool :=
  VALID_TRANSITIONS.contains (f, t)

/-- The typed errors raised by the modelled operations. -/
inductive DSErr
  | documentNotFound (key : String)
  | invalidStateTransition (key : String) (currentState targetState : String)
  | versionNotFound (docId version : String)
  | versionAlreadyExists (docId version : String)
  | s3OperationFailed (operation : String)
deriving DecidableEq, Repr

/-- Models DocumentStateManager.get_document_state: error if the object is missing,
ok none if the stage tag is absent, empty or unparsable, ok (some st) otherwise. -/
def get_document_state (s : Store) (key : String) : Except DSErr (Option DocumentState) :=
  match lookupObj s key with
  | none => .error (.documentNotFound key)
  | some obj =>
    match tmGet obj.tags "stage" with
    | none => .ok none
    | some stage =>
      if stage = "" then .ok none
      else .ok (parseDocumentState stage)

/-- The new tag set written by transition_document_state: stage, state_changed_at,
previous_stage when there was a current state, then the meta-prefixed metadata. -/
def buildTransitionTags (current : Option DocumentState) (toState : DocumentState)
    (metadata : TagMap) (now : String) : TagMap :=
  let base := tmInsert (tmInsert [] "stage" toState.value) "state_changed_at" now
  let base := match current with
    | some c => tmInsert base "previous_stage" c.value
    | none => base
  metadata.foldl (fun acc p => tmInsert acc ("meta_" ++ p.1) p.2) base

/-- Models DocumentStateManager.transition_document_state.  now is the timestamp
string written as state_changed_at.  An error models the raised exception, in
which case the store is unmodified (the only write is the final put_object_tags). -/
def transition_document_state (s : Store) (key : String) (toState : DocumentState)
    (metadata : TagMap) (force : Bool) (now : String) : Except DSErr Store :=
  match get_document_state s key with
  | .error e => .error e
  | .ok current =>
    match current with
    | some c =>
      if force = false ∧ is_valid_transition c toState = false then
        .error (.invalidStateTransition key c.value toState.value)
      else
        .ok (put_object_tags s key (buildTransitionTags (some c) toState metadata now))
    | none =>
      .ok (put_object_tags s key (buildTransitionTags none toState metadata now))

/-- The store observed after a transition call: the new store on success, the
unchanged store when the call raised (no write precedes any raise in the source). -/
def run_transition (s : Store) (key : String) (toState : DocumentState)
    (metadata : TagMap) (force : Bool) (now : String) : Store :=
  match transition_document_state s key toState metadata force now with
  | .ok s' => s'
  | .error _ => s

/-- Models DocumentStateManager.list_documents_by_state: objects under the prefix whose
stage tag parses to one of the requested states, truncated at maxResults. -/
def list_documents_by_state (s : Store) (states : List DocumentState) (pre : String)
    (maxResults : Nat) : List (String × DocumentState × TagMap) :=
  ((list_objects_with_tags s pre).filterMap (fun p =>
    match tmGet p.2 "stage" with
    | none => none
    | some stage =>
      if stage = "" then none
      else
        match parseDocumentState stage with
        | none => none
        | some ds => if states.contains ds then some (p.1, ds, p.2) else none)).take maxResults

/-- The stuck predicate of find_stuck_documents on a tag map: state_changed_at missing,
empty, unparsable, or strictly older than now minus the timeout. -/
def is_stuck_tags (parseTs : String → Option Int) (now : Int) (timeoutMinutes : Nat)
    (tags : TagMap) : Bool :=
  match tmGet tags "state_changed_at" with
  | none => true
  | some ts =>
    if ts = "" then true
    else
      match parseTs ts with
      | none => true
      | some t => t < now - timeoutMinutes

/-- Models DocumentStateManager.find_stuck_documents.  parseTs abstracts
datetime.fromisoformat (with the Z replacement and tz normalisation); time is in
minutes.  The none timestamp in a result tuple models the datetime.min sentinel
used for missing or unparsable timestamps. -/
def find_stuck_documents (s : Store) (state : DocumentState) (timeoutMinutes : Nat)
    (pre : String) (parseTs : String → Option Int) (now : Int) :
    List (String × Option Int × TagMap) :=
  (list_documents_by_state s [state] pre 1000).filterMap (fun p =>
    match tmGet p.2.2 "state_changed_at" with
    | none => some (p.1, none, p.2.2)
    | some ts =>
      if ts = "" then some (p.1, none, p.2.2)
      else
        match parseTs ts with
        | none => some (p.1, none, p.2.2)
        | some t => if t < now - timeoutMinutes then some (p.1, some t, p.2.2) else none)

/-- Sum of all buckets of get_state_statistics: every listed object increments exactly
one bucket, so the sum is the number of listed objects. -/
def state_statistics_sum (s : Store) (pre : String) : Nat :=
  (list_objects_with_tags s pre).length

/-- The no_state bucket of get_state_statistics: objects with a missing or empty stage tag. -/
def state_statistics_no_state (s : Store) (pre : String) : Nat :=
  ((list_objects_with_tags s pre).filter (fun p => (tmGet p.2 "stage").getD "" = "")).length

/-- A single named bucket of get_state_statistics: objects whose stage tag equals st.
For a nonempty st this is the count the statistics dict reports under st. -/
def state_statistics_count (s : Store) (pre : String) (st : String) : Nat :=
  ((list_objects_with_tags s pre).filter (fun p => tmGet p.2 "stage" = some st)).length

/-- The key prefix of a document's processed artifacts. -/
def versionDirOf (docId : String) : String :=
  "processed/" ++ docId ++ "/"

/-- The primary (markdown) artifact key of a version. -/
def mdKeyOf (docId version : String) : String :=
  "processed/" ++ docId ++ "/" ++ version ++ "/output.md"

/-- The structured (JSON) artifact key of a version. -/
def jsonKeyOf (docId version : String) : String :=
  "processed/" ++ docId ++ "/" ++ version ++ "/output.json"

/-- The current-version pointer key of a document. -/
def pointerKeyOf (docId : String) : String :=
  "processed/" ++ docId ++ "/current_version.txt"

/-- The version field parsed from a key by list_document_versions: parts[2] when
the key splits into at least four parts and parts[2] starts with v. -/
def versionOfKey (key : String) : Option String :=
  match splitKey key with
  | _ :: _ :: v :: _ :: _ => if strStartsWith v "v" then some v else none
  | _ => none

/-- The per-version artifact presence flags accumulated by list_document_versions. -/
structure VersionFlags where
  has_md : Bool
  has_json : Bool
deriving Repr, DecidableEq

/-- Records one artifact key in a version's flags (endswith .md, elif endswith .json). -/
def updateFlags (fl : VersionFlags) (key : String) : VersionFlags :=
  if strEndsWith key ".md" then { fl with has_md := true }
  else if strEndsWith key ".json" then { fl with has_json := true }
  else fl

/-- Dict-style upsert into the versions accumulator, preserving first-insertion order. -/
def assocUpdate (acc : List (String × VersionFlags)) (v : String) (key : String) :
    List (String × VersionFlags) :=
  match acc with
  | [] => [(v, updateFlags ⟨false, false⟩ key)]
  | (v', fl) :: rest =>
    if v' = v then (v', updateFlags fl key) :: rest
    else (v', fl) :: assocUpdate rest v key

/-- First pass of list_document_versions: group the listed keys by version string. -/
def collectVersions (keys : List String) : List (String × VersionFlags) :=
  keys.foldl (fun acc key =>
    match versionOfKey key with
    | some v => assocUpdate acc v key
    | none => acc) []

/-- One entry of list_document_versions.  state holds the raw stage tag string of the
primary artifact (not parsed), mirroring version_info.state in the source. -/
structure VersionInfo where
  version : String
  doc_id : String
  created_at : Option String
  state : Option String
  has_md : Bool
  has_json : Bool
  tags : TagMap
deriving Repr, DecidableEq

/-- Second pass of list_document_versions: hydrate a version with the tags of its
primary artifact when that artifact exists. -/
def hydrate (s : Store) (docId : String) (p : String × VersionFlags) : VersionInfo :=
  match lookupObj s (mdKeyOf docId p.1) with
  | some obj =>
    { version := p.1, doc_id := docId, created_at := tmGet obj.tags "created_at",
      state := tmGet obj.tags "stage", has_md := p.2.has_md, has_json := p.2.has_json,
      tags := obj.tags }
  | none =>
    { version := p.1, doc_id := docId, created_at := none,
      state := none, has_md := p.2.has_md, has_json := p.2.has_json, tags := [] }

/-- Models DocumentStore.list_document_versions: group artifact keys by version,
hydrate each version from its primary artifact, sort ascending by version number
(stable sort, non-numeric suffixes sort with key 0). -/
def list_document_versions (s : Store) (docId : String) : List VersionInfo :=
  let keys := list_objects_with_prefix s (versionDirOf docId) 1000
  ((collectVersions keys).map (hydrate s docId)).insertionSort
    (fun a b => versionSortKey a.version ≤ versionSortKey b.version)

/-- The tag set written on both artifacts by create_document_version. -/
def createVersionTags (docId version now : String) (metadata : TagMap) : TagMap :=
  let base := tmInsert (tmInsert (tmInsert (tmInsert [] "stage" "draft") "doc_id" docId)
    "version" version) "created_at" now
  metadata.foldl (fun acc p => tmInsert acc ("meta_" ++ p.1) p.2) base

/-- Models DocumentStore.create_document_version with the version given by the caller.
jsonPutFails injects a failure of the structured-artifact upload (the raised S3 error)
and rollbackFails injects a failure of the best-effort delete of the primary artifact;
both model backend behaviour outside the store state.  The result pairs the store
as left by the call (partial writes persist across a raise) with the outcome. -/
def create_document_version (s : Store) (docId md_content json_str version : String)
    (metadata : TagMap) (now : String) (jsonPutFails rollbackFails : Bool) :
    Store × Except DSErr String :=
  let md_key := mdKeyOf docId version
  if object_exists s md_key then
    (s, .error (.versionAlreadyExists docId version))
  else
    let tags := createVersionTags docId version now metadata
    let s₁ := put_object_content s md_key md_content tags
    if jsonPutFails then
      let s₂ := if rollbackFails then s₁ else delete_object s₁ md_key
      (s₂, .error (.s3OperationFailed "put_object_content"))
    else
      (put_object_content s₁ (jsonKeyOf docId version) json_str tags, .ok version)

/-- Models DocumentStore.approve_document_version, recording every store observed
during the call.  On success the returned trace holds the observation points in
order: the initial store, the stores after archiving the previously final
version's primary and structured artifacts (when one is archived), the stores
after finalising the target's primary and structured artifacts, and the store
after the current-version pointer write.  An error models the raised exception.
The same timestamp string stands in for each utcnow() reading of the call. -/
def approve_document_version (s : Store) (docId version : String)
    (approverInfo : TagMap) (now : String) : Except DSErr (List Store) :=
  let md_key := mdKeyOf docId version
  let json_key := jsonKeyOf docId version
  if object_exists s md_key = false then
    .error (.versionNotFound docId version)
  else
    match get_document_state s md_key with
    | .error e => .error e
    | .ok current =>
      if current ≠ some .draft then
        .error (.invalidStateTransition md_key
          ((current.map DocumentState.value).getD "unknown") "draft")
      else
        let versions := list_document_versions s docId
        let current_final := (versions.find? (fun v => v.state = some "final")).map
          (fun v => v.version)
        let afterArchive : Except DSErr (List Store × Store) :=
          match current_final with
          | some oldv =>
            if oldv ≠ version then
              match transition_document_state s (mdKeyOf docId oldv) .archived [] false now with
              | .error e => .error e
              | .ok s₁ =>
                match transition_document_state s₁ (jsonKeyOf docId oldv) .archived [] false now with
                | .error e => .error e
                | .ok s₂ => .ok ([s₁, s₂], s₂)
            else .ok ([], s)
          | none => .ok ([], s)
        match afterArchive with
        | .error e => .error e
        | .ok (archiveTrace, s₂) =>
          let metadata := tmInsert approverInfo "approved_at" now
          match transition_document_state s₂ md_key .final metadata false now with
          | .error e => .error e
          | .ok s₃ =>
            match transition_document_state s₃ json_key .final metadata false now with
            | .error e => .error e
            | .ok s₄ =>
              let s₅ := put_object_content s₄ (pointerKeyOf docId) version
                [("stage", "metadata"), ("doc_id", docId), ("points_to", version)]
              .ok (s :: archiveTrace ++ [s₃, s₄, s₅])

/-- True when get_document_state returns the FINAL state (no error, parsed). -/
def stateIsFinal (s : Store) (k : String) : Bool :=
  match get_document_state s k with
  | .ok (some .final) => true
  | _ => false

/-- Models DocumentStore.get_current_document_version: prefer the pointer record when
it names a version whose primary artifact exists in FINAL state (any pointer-path
failure falls through), otherwise fall back to scanning the versions for the first
FINAL one. -/
def get_current_document_version (s : Store) (docId : String) : Option String :=
  let fromPointer : Option String :=
    match lookupObj s (pointerKeyOf docId) with
    | none => none
    | some obj =>
      let vc := strTrim obj.content
      if object_exists s (mdKeyOf docId vc) && stateIsFinal s (mdKeyOf docId vc) then
        some vc
      else none
  match fromPointer with
  | some v => some v
  | none =>
    match (list_document_versions s docId).find? (fun vi => vi.state = some "final") with
    | some vi => some vi.version
    | none => none

/-- Models DocumentStore.get_system_health: total documents are the tagged objects
minus the no_state bucket, failed documents are the failed bucket, stuck documents
are the PROCESSING objects stuck past a 10-minute timeout.  The failure-ratio test
failed > total * 0.1 is modelled exactly as 10 * failed > total. -/
structure HealthInfo where
  status : String
  total_documents : Nat
  stuck_documents : Nat
  failed_documents : Nat
deriving Repr, DecidableEq

/-- The number of documents stuck in the given state, as used by get_system_health
through list_stuck_documents (which maps over find_stuck_documents, keeping length). -/
def stuckCount (s : Store) (state : DocumentState) (timeoutMinutes : Nat)
    (parseTs : String → Option Int) (now : Int) : Nat :=
  (find_stuck_documents s state timeoutMinutes "" parseTs now).length

/-- The total_documents value of get_system_health. -/
def healthTotalDocs (s : Store) : Nat :=
  state_statistics_sum s "" - state_statistics_no_state s ""

/-- The failed_documents value of get_system_health. -/
def healthFailedDocs (s : Store) : Nat :=
  state_statistics_count s "" "failed"

/-- Models DocumentStore.get_system_health. -/
def get_system_health (s : Store) (parseTs : String → Option Int) (now : Int) : HealthInfo :=
  let total := healthTotalDocs s
  let failed := healthFailedDocs s
  let stuck := stuckCount s .processing 10 parseTs now
  let status :=
    if stuck > 0 ∨ 10 * failed > total then "unhealthy"
    else if failed > 0 ∨ stuck > 0 then "degraded"
    else "healthy"
  { status := status, total_documents := total, stuck_documents := stuck,
    failed_documents := failed }

/-- The in-process cache backend state (cache.MemoryCache): a dict from cache key to
entry, with entry contents abstracted as V (the invalidation path never reads them). -/
abbrev MemCache (V : Type) := List (String × V)

/-- First-match lookup in the cache dict. -/
def lookupMem {V : Type} (c : MemCache V) (k : String) : Option V :=
  match c with
  | [] => none
  | (k', v) :: rest => if k' = k then some v else lookupMem rest k

/-- Models MemoryCache.delete: remove the key if present, reporting whether it was. -/
def memDelete {V : Type} (c : MemCache V) (k : String) : MemCache V × Bool :=
  if (lookupMem c k).isSome then (c.filter (fun p => p.1 ≠ k), true) else (c, false)

/-- Models DocumentCache._make_key. -/
def cacheMakeKey (pre arg : String) : String :=
  "doc_store:" ++ pre ++ ":" ++ arg

/-- The list categories deleted by DocumentCache.invalidate_lists. -/
def cacheListTypes : List String :=
  ["final", "draft", "raw", "processing", "failed"]

/-- The loop of DocumentCache.invalidate_lists: delete each list category key in
order, counting the deletes that found their key. -/
def delListKeys {V : Type} (lts : List String) (c : MemCache V) (n : Nat) : MemCache V × Nat :=
  match lts with
  | [] => (c, n)
  | lt :: rest =>
    let r := memDelete c (cacheMakeKey "list" lt)
    delListKeys rest r.1 (if r.2 then n + 1 else n)

/-- Models DocumentCache.invalidate_lists: delete every list category key. -/
def invalidate_lists {V : Type} (c : MemCache V) : MemCache V × Nat :=
  delListKeys cacheListTypes c 0

/-- Models DocumentCache.invalidate_document: delete the document's content entry,
then invalidate all list categories; the reported flag is the content delete's. -/
def invalidate_document {V : Type} (c : MemCache V) (docId : String) : MemCache V × Bool :=
  let r := memDelete c (cacheMakeKey "content" docId)
  ((invalidate_lists r.1).1, r.2)

/-- A raw exception from the backing S3 client as the retry decorator sees it:
a botocore ClientError with its error code, or a BotoCoreError. -/
inductive BackendErr
  | client (code : String)
  | botoCore
deriving DecidableEq, Repr

/-- The typed errors an adapter operation raises in place of raw backend errors. -/
inductive S3Err
  | objectNotFound (operation bucket key : String)
  | bucketNotFound (operation bucket : String)
  | permissionDenied (operation bucket key : String)
  | operationFailed (operation bucket key : String)
deriving DecidableEq, Repr

/-- An exception escaping a decorated adapter operation: a typed S3 error, a raw
backend error, or the RetryExhaustedError raised by the exhausted decorator. -/
inductive PyExc
  | s3 (e : S3Err)
  | backend (e : BackendErr)
  | retryExhausted (operation : String) (attempts : Nat) (lastError : BackendErr)
deriving DecidableEq, Repr

/-- The sleep performed before retry attempt number attempt (seconds):
min(base_delay * backoff_factor ** attempt, max_delay) with base 1, factor 2, cap 60. -/
def retryDelay (attempt : Nat) : Nat :=
  min (1 * 2 ^ attempt) 60

/-- The retry loop of utils.retry_with_backoff from a given attempt index with the
remaining attempt budget.  f gives the outcome of each underlying invocation; only
raw backend errors (the ClientError, BotoCoreError tuple) are caught and retried.
Returns the escaping outcome paired with the list of sleeps performed. -/
def retryLoop {α : Type} (f : Nat → Except PyExc α) (maxAttempts : Nat) (opName : String) :
    Nat → Nat → Except PyExc α × List Nat
  | _, 0 => (.error (.retryExhausted opName maxAttempts .botoCore), [])
  | attempt, remaining + 1 =>
    match f attempt with
    | .ok a => (.ok a, [])
    | .error e =>
      match e with
      | .backend be =>
        if remaining = 0 then (.error (.retryExhausted opName maxAttempts be), [])
        else
          let r := retryLoop f maxAttempts opName (attempt + 1) remaining
          (r.1, retryDelay attempt :: r.2)
      | _ => (.error e, [])

/-- Models the retry_with_backoff decorator with max_attempts 3 as applied in s3_ops. -/
def retry_with_backoff {α : Type} (f : Nat → Except PyExc α) (opName : String) :
    Except PyExc α × List Nat :=
  retryLoop f 3 opName 0 3

/-- One invocation of the body of s3_ops.get_object_content: every backend error is
caught inside the body and re-raised as a typed S3 error (the NoSuchKey, NoSuchBucket
and AccessDenied or Forbidden codes map to their typed errors, everything else to
the generic operation failure; BotoCoreError falls into the generic except clause).
behave gives the backend outcome of the n-th invocation. -/
def get_object_content_attempt (behave : Nat → Except BackendErr String)
    (bucket key : String) (n : Nat) : Except S3Err String :=
  match behave n with
  | .ok content => .ok content
  | .error (.client code) =>
    if code = "NoSuchKey" then .error (.objectNotFound "get_object_content" bucket key)
    else if code = "NoSuchBucket" then .error (.bucketNotFound "get_object_content" bucket)
    else if code = "AccessDenied" ∨ code = "Forbidden" then
      .error (.permissionDenied "get_object_content" bucket key)
    else .error (.operationFailed "get_object_content" bucket key)
  | .error .botoCore => .error (.operationFailed "get_object_content" bucket key)

/-- The decorated s3_ops.get_object_content: the retry wrapper around the converting
body, returning the escaping outcome and the backoff sleeps performed. -/
def get_object_content_retried (behave : Nat → Except BackendErr String)
    (bucket key : String) : Except PyExc String × List Nat :=
  retry_with_backoff
    (fun n => (get_object_content_attempt behave bucket key n).mapError PyExc.s3)
    "get_object_content"

/-- A version of the document reads as FINAL: its primary (markdown) artifact exists
and carries the raw stage tag final.  This is the observation the store itself uses
(list_document_versions and get_current_document_version read the version state from
the primary artifact's tags). -/
def isFinalVersionB (s : Store) (docId v : String) : Bool :=
  match lookupObj s (mdKeyOf docId v) with
  | some obj => tmGet obj.tags "stage" = some "final"
  | none => false

/-- The version-model invariant: at most one version of the document is FINAL. -/
def atMostOneFinal (s : Store) (docId : String) : Prop :=
  ∀ v w : String, isFinalVersionB s docId v = true → isFinalVersionB s docId w = true →
    v = w

/-- A store key under the document's processed namespace is canonical: the
current-version pointer, or a primary or structured artifact key of a well-formed
version string. -/
def canonicalKeyB (docId k : String) : Bool :=
  if k = pointerKeyOf docId then true
  else
    match (splitKey k).get? 2 with
    | some v =>
      validVersionString v &&
        (decide (k = mdKeyOf docId v) || decide (k = jsonKeyOf docId v))
    | none => false

/-- The store is well formed for the document: every key under its processed
namespace is canonical.  This pins down which objects count as the document's
versions: exactly the processed artifacts in the layout the store itself writes. -/
def wellFormedFor (s : Store) (docId : String) : Bool :=
  s.all (fun p => !(strStartsWith p.1 (versionDirOf docId)) || canonicalKeyB docId p.1)

/-! Basic lemmas about the dict and store primitives. -/

theorem tmGet_tmInsert_self (m : TagMap) (k v : String) :
    tmGet (tmInsert m k v) k = some v := by
  induction m with
  | nil => simp [tmInsert, tmGet]
  | cons p rest ih =>
    obtain ⟨pk, pv⟩ := p
    by_cases h : pk = k <;> simp [tmInsert, tmGet, h, ih]

theorem tmGet_tmInsert_ne (m : TagMap) (k v k' : String) (h : k' ≠ k) :
    tmGet (tmInsert m k v) k' = tmGet m k' := by
  have h2 : ¬ (k = k') := fun hh => h hh.symm
  induction m with
  | nil => simp [tmInsert, tmGet, h2]
  | cons p rest ih =>
    obtain ⟨pk, pv⟩ := p
    by_cases hp : pk = k
    · subst hp
      simp [tmInsert, tmGet, h2, h]
    · by_cases hp' : pk = k' <;> simp [tmInsert, tmGet, hp, hp', h, ih]

theorem lookupObj_eq_none_iff (s : Store) (k : String) :
    lookupObj s k = none ↔ ∀ p ∈ s, p.1 ≠ k := by
  induction s with
  | nil => simp [lookupObj]
  | cons p rest ih =>
    obtain ⟨pk, po⟩ := p
    by_cases h : pk = k <;> simp [lookupObj, h, ih]

theorem mem_of_lookupObj (s : Store) (k : String) (o : S3Object)
    (h : lookupObj s k = some o) : (k, o) ∈ s := by
  induction s with
  | nil => simp [lookupObj] at h
  | cons p rest ih =>
    obtain ⟨pk, po⟩ := p
    by_cases hp : pk = k
    · subst hp
      simp [lookupObj] at h
      subst h
      exact List.mem_cons_self _ _
    · simp only [lookupObj, if_neg hp] at h
      exact List.mem_cons_of_mem _ (ih h)

theorem lookupObj_put_object_tags (s : Store) (k : String) (tags : TagMap) (k' : String) :
    lookupObj (put_object_tags s k tags) k' =
      if k' = k then (lookupObj s k).map (fun o => { o with tags := tags })
      else lookupObj s k' := by
  induction s with
  | nil => simp [put_object_tags, lookupObj]
  | cons p rest ih =>
    obtain ⟨pk, po⟩ := p
    by_cases hp : pk = k
    · subst hp
      by_cases hk : k' = pk
      · subst hk
        simp [put_object_tags, lookupObj, ih]
      · have hk2 : ¬ (pk = k') := fun hh => hk hh.symm
        simp [put_object_tags, lookupObj, hk, hk2, ih]
    · by_cases hp' : pk = k'
      · subst hp'
        simp [put_object_tags, lookupObj, hp]
      · simp [put_object_tags, lookupObj, hp, hp', ih]

theorem lookupObj_overwriteObj (s : Store) (k : String) (o : S3Object) (k' : String) :
    lookupObj (overwriteObj s k o) k' =
      if k' = k then (lookupObj s k).map (fun _ => o)
      else lookupObj s k' := by
  induction s with
  | nil => simp [overwriteObj, lookupObj]
  | cons p rest ih =>
    obtain ⟨pk, po⟩ := p
    by_cases hp : pk = k
    · subst hp
      by_cases hk : k' = pk
      · subst hk
        simp [overwriteObj, lookupObj, ih]
      · have hk2 : ¬ (pk = k') := fun hh => hk hh.symm
        simp [overwriteObj, lookupObj, hk, hk2, ih]
    · by_cases hp' : pk = k'
      · subst hp'
        simp [overwriteObj, lookupObj, hp]
      · simp [overwriteObj, lookupObj, hp, hp', ih]

theorem lookupObj_append_some (s t : Store) (k : String) (o : S3Object)
    (h : lookupObj s k = some o) : lookupObj (s ++ t) k = some o := by
  induction s with
  | nil => simp [lookupObj] at h
  | cons p rest ih =>
    obtain ⟨pk, po⟩ := p
    by_cases hp : pk = k
    · simp only [lookupObj, if_pos hp] at h
      simp [lookupObj, hp, h]
    · simp only [lookupObj, if_neg hp] at h
      simp [lookupObj, hp, ih h]

theorem lookupObj_append_none (s t : Store) (k : String)
    (h : lookupObj s k = none) : lookupObj (s ++ t) k = lookupObj t k := by
  induction s with
  | nil => simp [lookupObj]
  | cons p rest ih =>
    obtain ⟨pk, po⟩ := p
    by_cases hp : pk = k
    · simp [lookupObj, hp] at h
    · simp only [lookupObj, if_neg hp] at h
      simp [lookupObj, hp, ih h]

theorem lookupObj_put_object_content (s : Store) (k : String) (c : String) (tags : TagMap)
    (k' : String) :
    lookupObj (put_object_content s k c tags) k' =
      if k' = k then some ⟨c, tags⟩ else lookupObj s k' := by
  unfold put_object_content
  by_cases hex : (lookupObj s k).isSome
  · obtain ⟨o, ho⟩ := Option.isSome_iff_exists.mp hex
    simp [hex, lookupObj_overwriteObj, ho]
  · have hnone : lookupObj s k = none := Option.not_isSome_iff_eq_none.mp hex
    simp only [hex, Bool.false_eq_true, if_false]
    by_cases hk : k' = k
    · subst hk
      rw [lookupObj_append_none s _ k' hnone]
      simp [lookupObj]
    · have hk2 : ¬ (k = k') := fun hh => hk hh.symm
      cases hc : lookupObj s k' with
      | none =>
        rw [lookupObj_append_none s _ k' hc]
        simp [lookupObj, hk, hk2]
      | some o =>
        rw [lookupObj_append_some s _ k' o hc]
        simp [hk]

theorem lookupObj_delete_object (s : Store) (k k' : String) :
    lookupObj (delete_object s k) k' =
      if k' = k then none else lookupObj s k' := by
  induction s with
  | nil => simp [delete_object, lookupObj]
  | cons p rest ih =>
    obtain ⟨pk, po⟩ := p
    by_cases hp : pk = k
    · subst hp
      by_cases hk : k' = pk
      · subst hk
        simp [delete_object, lookupObj, ih]
      · have hk2 : ¬ (pk = k') := fun hh => hk hh.symm
        simp [delete_object, lookupObj, hk, hk2, ih]
    · by_cases hp' : pk = k'
      · subst hp'
        simp [delete_object, lookupObj, hp]
      · simp [delete_object, lookupObj, hp, hp', ih]

theorem delete_object_append_fresh (s : Store) (k : String) (o : S3Object)
    (habs : ∀ p ∈ s, p.1 ≠ k) : delete_object (s ++ [(k, o)]) k = s := by
  induction s with
  | nil => simp [delete_object]
  | cons p rest ih =>
    obtain ⟨pk, po⟩ := p
    have hpk : pk ≠ k := habs (pk, po) (List.mem_cons_self _ _)
    have ih2 := ih (fun q hq => habs q (List.mem_cons_of_mem _ hq))
    simp only [List.cons_append, delete_object, if_neg hpk]
    exact congrArg (fun l => (pk, po) :: l) ih2

theorem delete_put_new (s : Store) (k : String) (c : String) (tags : TagMap)
    (h : lookupObj s k = none) :
    delete_object (put_object_content s k c tags) k = s := by
  have habs : ∀ p ∈ s, p.1 ≠ k := (lookupObj_eq_none_iff s k).mp h
  unfold put_object_content
  have hex : (lookupObj s k).isSome = false := by rw [h] ; rfl
  simp only [hex, Bool.false_eq_true, if_false]
  exact delete_object_append_fresh s k _ habs

/-! Lemmas about the modelled string operations and key layout. -/

theorem splitChars_ne_nil (l : List Char) : splitChars l ≠ [] := by
  cases l with
  | nil => simp [splitChars]
  | cons c cs =>
    simp only [splitChars]
    cases h : splitChars cs with
    | nil => simp
    | cons g gs => by_cases hc : c = '/' <;> simp [hc]

theorem splitChars_no_sep (l : List Char) (h : ∀ c ∈ l, c ≠ '/') : splitChars l = [l] := by
  induction l with
  | nil => simp [splitChars]
  | cons c cs ih =>
    have hc : c ≠ '/' := h c (List.mem_cons_self _ _)
    have ih2 := ih (fun x hx => h x (List.mem_cons_of_mem _ hx))
    simp [splitChars, ih2, hc]

theorem splitChars_append_sep (l r : List Char) (h : ∀ c ∈ l, c ≠ '/') :
    splitChars (l ++ '/' :: r) = l :: splitChars r := by
  induction l with
  | nil =>
    simp only [List.nil_append, splitChars]
    cases hs : splitChars r with
    | nil => exact absurd hs (splitChars_ne_nil r)
    | cons g gs => simp
  | cons c cs ih =>
    have hc : c ≠ '/' := h c (List.mem_cons_self _ _)
    have ih2 := ih (fun x hx => h x (List.mem_cons_of_mem _ hx))
    simp only [List.cons_append, splitChars]
    rw [show splitChars (cs.append ('/' :: r)) = cs :: splitChars r from ih2]
    simp [hc]

theorem noSlash_chars (s : String) (h : noSlash s = true) : ∀ c ∈ s.data, c ≠ '/' := by
  intro c hc
  have := (List.all_eq_true.mp h) c hc
  simpa using this

theorem isDigit_ne_slash (c : Char) (h : c.isDigit = true) : c ≠ '/' := by
  intro hc
  subst hc
  simp [Char.isDigit] at h

theorem valid_version_noSlash (v : String) (h : validVersionString v = true) :
    noSlash v = true := by
  obtain ⟨l⟩ := v
  cases l with
  | nil => simp [validVersionString] at h
  | cons c rest =>
    simp only [validVersionString] at h
    obtain ⟨hc, _, hdig⟩ := by simpa using h
    subst hc
    simp only [noSlash, List.all_cons, Bool.and_eq_true]
    constructor
    · decide
    · rw [List.all_eq_true]
      intro x hx
      simpa using isDigit_ne_slash x (hdig x hx)

theorem valid_version_startsWith (v : String) (h : validVersionString v = true) :
    strStartsWith v "v" = true := by
  obtain ⟨l⟩ := v
  cases l with
  | nil => simp [validVersionString] at h
  | cons c rest =>
    simp only [validVersionString] at h
    obtain ⟨hc, _, _⟩ := by simpa using h
    subst hc
    simp [strStartsWith, List.isPrefixOf]

theorem data_mdKeyOf (d v : String) :
    (mdKeyOf d v).data =
      "processed".data ++ '/' :: (d.data ++ '/' :: (v.data ++ '/' :: "output.md".data)) := by
  simp [mdKeyOf, String.data_append, List.append_assoc]

theorem data_jsonKeyOf (d v : String) :
    (jsonKeyOf d v).data =
      "processed".data ++ '/' :: (d.data ++ '/' :: (v.data ++ '/' :: "output.json".data)) := by
  simp [jsonKeyOf, String.data_append, List.append_assoc]

theorem data_pointerKeyOf (d : String) :
    (pointerKeyOf d).data =
      "processed".data ++ '/' :: (d.data ++ '/' :: "current_version.txt".data) := by
  simp [pointerKeyOf, String.data_append, List.append_assoc]

theorem splitKey_mdKeyOf (d v : String) (hd : noSlash d = true) (hv : noSlash v = true) :
    splitKey (mdKeyOf d v) = ["processed", d, v, "output.md"] := by
  unfold splitKey
  rw [data_mdKeyOf]
  rw [splitChars_append_sep _ _ (by decide)]
  rw [splitChars_append_sep _ _ (noSlash_chars d hd)]
  rw [splitChars_append_sep _ _ (noSlash_chars v hv)]
  rw [splitChars_no_sep _ (by decide)]
  rfl

theorem splitKey_jsonKeyOf (d v : String) (hd : noSlash d = true) (hv : noSlash v = true) :
    splitKey (jsonKeyOf d v) = ["processed", d, v, "output.json"] := by
  unfold splitKey
  rw [data_jsonKeyOf]
  rw [splitChars_append_sep _ _ (by decide)]
  rw [splitChars_append_sep _ _ (noSlash_chars d hd)]
  rw [splitChars_append_sep _ _ (noSlash_chars v hv)]
  rw [splitChars_no_sep _ (by decide)]
  rfl

theorem splitKey_pointerKeyOf (d : String) (hd : noSlash d = true) :
    splitKey (pointerKeyOf d) = ["processed", d, "current_version.txt"] := by
  unfold splitKey
  rw [data_pointerKeyOf]
  rw [splitChars_append_sep _ _ (by decide)]
  rw [splitChars_append_sep _ _ (noSlash_chars d hd)]
  rw [splitChars_no_sep _ (by decide)]
  rfl

theorem revHead_mdKeyOf (d v : String) :
    (mdKeyOf d v).data.reverse.head? = some 'd' := by
  have h : (mdKeyOf d v).data =
      ("processed/" ++ d ++ "/" ++ v).data ++ "/output.md".data := by
    simp [mdKeyOf, String.data_append]
  rw [h, List.reverse_append]
  rfl

theorem revHead_jsonKeyOf (d v : String) :
    (jsonKeyOf d v).data.reverse.head? = some 'n' := by
  have h : (jsonKeyOf d v).data =
      ("processed/" ++ d ++ "/" ++ v).data ++ "/output.json".data := by
    simp [jsonKeyOf, String.data_append]
  rw [h, List.reverse_append]
  rfl

theorem revHead_pointerKeyOf (d : String) :
    (pointerKeyOf d).data.reverse.head? = some 't' := by
  have h : (pointerKeyOf d).data =
      ("processed/" ++ d).data ++ "/current_version.txt".data := by
    simp [pointerKeyOf, String.data_append]
  rw [h, List.reverse_append]
  rfl

theorem mdKeyOf_ne_jsonKeyOf (d v d' w : String) : mdKeyOf d v ≠ jsonKeyOf d' w := by
  intro h
  have h1 := revHead_mdKeyOf d v
  rw [h, revHead_jsonKeyOf] at h1
  exact absurd h1 (by decide)

theorem mdKeyOf_ne_pointerKeyOf (d v d' : String) : mdKeyOf d v ≠ pointerKeyOf d' := by
  intro h
  have h1 := revHead_mdKeyOf d v
  rw [h, revHead_pointerKeyOf] at h1
  exact absurd h1 (by decide)

theorem jsonKeyOf_ne_pointerKeyOf (d v d' : String) : jsonKeyOf d v ≠ pointerKeyOf d' := by
  intro h
  have h1 := revHead_jsonKeyOf d v
  rw [h, revHead_pointerKeyOf] at h1
  exact absurd h1 (by decide)

theorem mdKeyOf_inj (d v w : String) (h : mdKeyOf d v = mdKeyOf d w) : v = w := by
  have h0 := congrArg String.data h
  rw [data_mdKeyOf, data_mdKeyOf] at h0
  have h1 := List.append_cancel_left h0
  have h2 : d.data ++ ('/' :: (v.data ++ '/' :: "output.md".data)) =
      d.data ++ ('/' :: (w.data ++ '/' :: "output.md".data)) := by
    simpa using h1
  have h3 := List.append_cancel_left h2
  have h4 : v.data ++ ('/' :: "output.md".data) = w.data ++ ('/' :: "output.md".data) := by
    simpa using h3
  exact String.ext (List.append_cancel_right h4)

theorem jsonKeyOf_inj (d v w : String) (h : jsonKeyOf d v = jsonKeyOf d w) : v = w := by
  have h0 := congrArg String.data h
  rw [data_jsonKeyOf, data_jsonKeyOf] at h0
  have h1 := List.append_cancel_left h0
  have h2 : d.data ++ ('/' :: (v.data ++ '/' :: "output.json".data)) =
      d.data ++ ('/' :: (w.data ++ '/' :: "output.json".data)) := by
    simpa using h1
  have h3 := List.append_cancel_left h2
  have h4 : v.data ++ ('/' :: "output.json".data) = w.data ++ ('/' :: "output.json".data) := by
    simpa using h3
  exact String.ext (List.append_cancel_right h4)

theorem strStartsWith_of_data (k pre : String) (rest : List Char)
    (h : k.data = pre.data ++ rest) : strStartsWith k pre = true := by
  unfold strStartsWith
  rw [List.isPrefixOf_iff_prefix]
  exact ⟨rest, h.symm⟩

theorem strStartsWith_mdKeyOf (d v : String) :
    strStartsWith (mdKeyOf d v) (versionDirOf d) = true := by
  refine strStartsWith_of_data _ _ (v.data ++ "/output.md".data) ?_
  simp [mdKeyOf, versionDirOf, String.data_append, List.append_assoc]

theorem strStartsWith_jsonKeyOf (d v : String) :
    strStartsWith (jsonKeyOf d v) (versionDirOf d) = true := by
  refine strStartsWith_of_data _ _ (v.data ++ "/output.json".data) ?_
  simp [jsonKeyOf, versionDirOf, String.data_append, List.append_assoc]

theorem strStartsWith_pointerKeyOf (d : String) :
    strStartsWith (pointerKeyOf d) (versionDirOf d) = true := by
  refine strStartsWith_of_data _ _ "current_version.txt".data ?_
  simp [pointerKeyOf, versionDirOf, String.data_append, List.append_assoc]

theorem versionOfKey_mdKeyOf (d v : String) (hd : noSlash d = true)
    (hv : validVersionString v = true) : versionOfKey (mdKeyOf d v) = some v := by
  unfold versionOfKey
  rw [splitKey_mdKeyOf d v hd (valid_version_noSlash v hv)]
  simp [valid_version_startsWith v hv]

theorem versionOfKey_jsonKeyOf (d v : String) (hd : noSlash d = true)
    (hv : validVersionString v = true) : versionOfKey (jsonKeyOf d v) = some v := by
  unfold versionOfKey
  rw [splitKey_jsonKeyOf d v hd (valid_version_noSlash v hv)]
  simp [valid_version_startsWith v hv]

theorem versionOfKey_pointerKeyOf (d : String) (hd : noSlash d = true) :
    versionOfKey (pointerKeyOf d) = none := by
  unfold versionOfKey
  rw [splitKey_pointerKeyOf d hd]

/-! Lemmas about transition tag construction and transition outcomes. -/

theorem head_meta (x : String) : ("meta_" ++ x).data.head? = some 'm' := rfl

theorem meta_key_ne (x k : String) (hk : k.data.head? ≠ some 'm') : ("meta_" ++ x) ≠ k :=
  fun h => hk (h ▸ head_meta x)

theorem metaKey_inj (a b : String) (h : "meta_" ++ a = "meta_" ++ b) : a = b := by
  have h0 := congrArg String.data h
  rw [String.data_append, String.data_append] at h0
  exact String.ext (List.append_cancel_left h0)

theorem tmGet_foldl_meta_of_ne (meta : TagMap) (base : TagMap) (key : String)
    (h : ∀ p ∈ meta, ("meta_" ++ p.1) ≠ key) :
    tmGet (meta.foldl (fun acc p => tmInsert acc ("meta_" ++ p.1) p.2) base) key
      = tmGet base key := by
  induction meta generalizing base with
  | nil => rfl
  | cons q rest ih =>
    rw [List.foldl_cons]
    rw [ih _ (fun p hp => h p (List.mem_cons_of_mem _ hp))]
    exact tmGet_tmInsert_ne _ _ _ _ (fun hh => h q (List.mem_cons_self _ _) hh.symm)

theorem tmGet_foldl_meta_self (meta : TagMap) (base : TagMap)
    (hnodup : (meta.map Prod.fst).Nodup) (p : String × String) (hp : p ∈ meta) :
    tmGet (meta.foldl (fun acc q => tmInsert acc ("meta_" ++ q.1) q.2) base)
      ("meta_" ++ p.1) = some p.2 := by
  induction meta generalizing base with
  | nil => cases hp
  | cons q rest ih =>
    rw [List.foldl_cons]
    rw [List.map_cons, List.nodup_cons] at hnodup
    rcases List.mem_cons.mp hp with heq | hmem
    · subst heq
      rw [tmGet_foldl_meta_of_ne rest _ _ ?hne]
      · exact tmGet_tmInsert_self _ _ _
      case hne =>
        intro r hr hcontra
        exact hnodup.1 ((metaKey_inj _ _ hcontra) ▸ List.mem_map_of_mem Prod.fst hr)
    · exact ih _ hnodup.2 hmem

theorem buildTags_stage (cur : Option DocumentState) (toState : DocumentState)
    (meta : TagMap) (now : String) :
    tmGet (buildTransitionTags cur toState meta now) "stage" = some toState.value := by
  simp only [buildTransitionTags]
  rw [tmGet_foldl_meta_of_ne _ _ _ (fun p _ => meta_key_ne p.1 _ (by decide))]
  cases cur <;> rfl

theorem buildTags_changed (cur : Option DocumentState) (toState : DocumentState)
    (meta : TagMap) (now : String) :
    tmGet (buildTransitionTags cur toState meta now) "state_changed_at" = some now := by
  simp only [buildTransitionTags]
  rw [tmGet_foldl_meta_of_ne _ _ _ (fun p _ => meta_key_ne p.1 _ (by decide))]
  cases cur <;> rfl

theorem buildTags_previous_some (c : DocumentState) (toState : DocumentState)
    (meta : TagMap) (now : String) :
    tmGet (buildTransitionTags (some c) toState meta now) "previous_stage"
      = some c.value := by
  simp only [buildTransitionTags]
  rw [tmGet_foldl_meta_of_ne _ _ _ (fun p _ => meta_key_ne p.1 _ (by decide))]
  rfl

theorem buildTags_previous_none (toState : DocumentState) (meta : TagMap) (now : String) :
    tmGet (buildTransitionTags none toState meta now) "previous_stage" = none := by
  simp only [buildTransitionTags]
  rw [tmGet_foldl_meta_of_ne _ _ _ (fun p _ => meta_key_ne p.1 _ (by decide))]
  rfl

theorem buildTags_meta (cur : Option DocumentState) (toState : DocumentState)
    (meta : TagMap) (now : String) (hnodup : (meta.map Prod.fst).Nodup)
    (p : String × String) (hp : p ∈ meta) :
    tmGet (buildTransitionTags cur toState meta now) ("meta_" ++ p.1) = some p.2 := by
  simp only [buildTransitionTags]
  exact tmGet_foldl_meta_self meta _ hnodup p hp

theorem transition_ok_of_valid (s : Store) (key : String) (c toState : DocumentState)
    (meta : TagMap) (now : String)
    (hg : get_document_state s key = .ok (some c))
    (hv : is_valid_transition c toState = true) :
    transition_document_state s key toState meta false now =
      .ok (put_object_tags s key (buildTransitionTags (some c) toState meta now)) := by
  unfold transition_document_state
  rw [hg]
  simp [hv]

theorem transition_ok_of_none (s : Store) (key : String) (toState : DocumentState)
    (meta : TagMap) (force : Bool) (now : String)
    (hg : get_document_state s key = .ok none) :
    transition_document_state s key toState meta force now =
      .ok (put_object_tags s key (buildTransitionTags none toState meta now)) := by
  unfold transition_document_state
  rw [hg]

theorem transition_error_of_invalid (s : Store) (key : String) (c toState : DocumentState)
    (meta : TagMap) (now : String)
    (hg : get_document_state s key = .ok (some c))
    (hv : is_valid_transition c toState = false) :
    transition_document_state s key toState meta false now =
      .error (.invalidStateTransition key c.value toState.value) := by
  unfold transition_document_state
  rw [hg]
  simp [hv]

theorem transition_ok_inv (s : Store) (key : String) (toState : DocumentState)
    (meta : TagMap) (force : Bool) (now : String) (s2 : Store)
    (h : transition_document_state s key toState meta force now = .ok s2) :
    ∃ cur, get_document_state s key = .ok cur ∧
      s2 = put_object_tags s key (buildTransitionTags cur toState meta now) := by
  unfold transition_document_state at h
  cases hg : get_document_state s key with
  | error e => rw [hg] at h ; simp at h
  | ok cur =>
    rw [hg] at h
    cases cur with
    | none =>
      simp only [Except.ok.injEq] at h
      exact ⟨none, rfl, h.symm⟩
    | some c =>
      by_cases hcond : force = false ∧ is_valid_transition c toState = false
      · simp only [if_pos hcond] at h
        exact Except.noConfusion h
      · simp only [if_neg hcond, Except.ok.injEq] at h
        exact ⟨some c, rfl, h.symm⟩

theorem get_state_lookup (s : Store) (key : String) (cur : Option DocumentState)
    (h : get_document_state s key = .ok cur) :
    ∃ o, lookupObj s key = some o := by
  unfold get_document_state at h
  cases hc : lookupObj s key
  · rw [hc] at h
    cases h
  · exact ⟨_, rfl⟩

theorem get_state_final_tag (s : Store) (key : String) (o : S3Object)
    (ho : lookupObj s key = some o)
    (h : get_document_state s key = .ok (some .final)) :
    tmGet o.tags "stage" = some "final" := by
  unfold get_document_state at h
  rw [ho] at h
  have h2 : (match tmGet o.tags "stage" with
      | none => (Except.ok none : Except DSErr (Option DocumentState))
      | some stage => if stage = "" then Except.ok none
        else Except.ok (parseDocumentState stage))
      = Except.ok (some DocumentState.final) := h
  cases ht : tmGet o.tags "stage" with
  | none =>
    rw [ht] at h2
    exact absurd h2 (by simp)
  | some stage =>
    rw [ht] at h2
    by_cases he : stage = ""
    · simp only [if_pos he] at h2
      simp at h2
    · simp only [if_neg he, Except.ok.injEq] at h2
      unfold parseDocumentState at h2
      split_ifs at h2 <;> simp_all

theorem get_state_of_tag (s : Store) (key : String) (o : S3Object)
    (ho : lookupObj s key = some o)
    (ht : tmGet o.tags "stage" = some "final") :
    get_document_state s key = .ok (some .final) := by
  unfold get_document_state
  rw [ho]
  simp only [ht]
  rfl

/-! Lemmas about the cache invalidation path. -/

theorem lookupMem_filter_self {V : Type} (c : MemCache V) (k : String) :
    lookupMem (c.filter (fun p => p.1 ≠ k)) k = none := by
  induction c with
  | nil => rfl
  | cons p rest ih =>
    obtain ⟨pk, pv⟩ := p
    by_cases hp : pk = k
    · simp only [List.filter_cons, hp]
      simpa using ih
    · simp only [List.filter_cons]
      simp only [decide_not, ne_eq]
      rw [if_pos (by simpa using hp)]
      simpa [lookupMem, hp] using ih

theorem lookupMem_filter_none {V : Type} (c : MemCache V) (k k' : String)
    (h : lookupMem c k' = none) :
    lookupMem (c.filter (fun p => p.1 ≠ k)) k' = none := by
  induction c with
  | nil => rfl
  | cons p rest ih =>
    obtain ⟨pk, pv⟩ := p
    by_cases hp' : pk = k'
    · simp [lookupMem, hp'] at h
    · simp only [lookupMem, if_neg hp'] at h
      by_cases hp : pk = k
      · simp only [List.filter_cons]
        rw [if_neg (by simpa using hp)]
        exact ih h
      · simp only [List.filter_cons]
        rw [if_pos (by simpa using hp)]
        simpa [lookupMem, hp'] using ih h

theorem memDelete_lookup_self {V : Type} (c : MemCache V) (k : String) :
    lookupMem (memDelete c k).1 k = none := by
  unfold memDelete
  by_cases h : (lookupMem c k).isSome
  · simp only [h, if_true]
    exact lookupMem_filter_self c k
  · simp only [h, Bool.false_eq_true, if_false]
    exact Option.not_isSome_iff_eq_none.mp h

theorem memDelete_preserves_none {V : Type} (c : MemCache V) (k k' : String)
    (h : lookupMem c k' = none) :
    lookupMem (memDelete c k).1 k' = none := by
  unfold memDelete
  by_cases hs : (lookupMem c k).isSome
  · simp only [hs, if_true]
    exact lookupMem_filter_none c k k' h
  · simpa [hs] using h

theorem memDelete_absent {V : Type} (c : MemCache V) (k : String)
    (h : lookupMem c k = none) : memDelete c k = (c, false) := by
  unfold memDelete
  simp [h]

theorem delListKeys_preserves_none {V : Type} (lts : List String) (c : MemCache V) (n : Nat)
    (k' : String) (h : lookupMem c k' = none) :
    lookupMem (delListKeys lts c n).1 k' = none := by
  induction lts generalizing c n with
  | nil => exact h
  | cons lt rest ih =>
    simp only [delListKeys]
    exact ih _ _ (memDelete_preserves_none _ _ _ h)

theorem delListKeys_deletes {V : Type} (lts : List String) (c : MemCache V) (n : Nat)
    (lt : String) (hmem : lt ∈ lts) :
    lookupMem (delListKeys lts c n).1 (cacheMakeKey "list" lt) = none := by
  induction lts generalizing c n with
  | nil => cases hmem
  | cons a rest ih =>
    simp only [delListKeys]
    rcases List.mem_cons.mp hmem with heq | hmem'
    · subst heq
      exact delListKeys_preserves_none _ _ _ _ (memDelete_lookup_self c _)
    · exact ih _ _ hmem'

theorem delListKeys_absent_id {V : Type} (lts : List String) (c : MemCache V) (n : Nat)
    (h : ∀ lt ∈ lts, lookupMem c (cacheMakeKey "list" lt) = none) :
    delListKeys lts c n = (c, n) := by
  induction lts generalizing n with
  | nil => rfl
  | cons a rest ih =>
    simp only [delListKeys]
    rw [memDelete_absent _ _ (h a (List.mem_cons_self _ _))]
    simpa using ih n (fun lt hlt => h lt (List.mem_cons_of_mem _ hlt))

/-! Claim theorems: state manager and cache. -/

/-- C2: when the stage tag of an existing object parses to fromState and the pair
(fromState, toState) is not an edge of the transition graph, the unforced transition
raises InvalidStateTransitionError, and the store (hence the object tag set, stage
included) observed after the call is unchanged. -/
theorem transition_invalid_edge_rejected
    (s : Store) (key : String) (fromState toState : DocumentState)
    (meta : TagMap) (now : String)
    (hstate : get_document_state s key = .ok (some fromState))
    (hedge : is_valid_transition fromState toState = false) :
    transition_document_state s key toState meta false now =
      .error (.invalidStateTransition key fromState.value toState.value) ∧
    run_transition s key toState meta false now = s := by
  have h := transition_error_of_invalid s key fromState toState meta now hstate hedge
  refine ⟨h, ?_⟩
  unfold run_transition
  rw [h]

/-- Witness for C2: a FINAL object rejects an unforced transition to DRAFT
(final, draft) is not an edge of the graph), leaving the store unchanged. -/
theorem transition_invalid_edge_rejected_witness :
    get_document_state [("k", ⟨"", [("stage", "final")]⟩)] "k" = .ok (some .final) ∧
    is_valid_transition .final .draft = false ∧
    (transition_document_state [("k", ⟨"", [("stage", "final")]⟩)] "k" .draft [] false "T" =
        .error (.invalidStateTransition "k" "final" "draft") ∧
      run_transition [("k", ⟨"", [("stage", "final")]⟩)] "k" .draft [] false "T" =
        [("k", ⟨"", [("stage", "final")]⟩)]) :=
  ⟨by rfl, by decide,
    transition_invalid_edge_rejected [("k", ⟨"", [("stage", "final")]⟩)] "k" .final .draft
      [] "T" (by rfl) (by decide)⟩

/-- C3: when the stage tag parses to fromState and (fromState, toState) is an edge of
the graph, the unforced transition succeeds and the written tag set carries
stage = toState, previous_stage = the prior state value, state_changed_at = the
fresh timestamp, and one meta-prefixed entry per supplied metadata key (metadata
keys taken distinct, as a dict). -/
theorem transition_valid_edge_updates
    (s : Store) (key : String) (fromState toState : DocumentState)
    (meta : TagMap) (now : String)
    (hstate : get_document_state s key = .ok (some fromState))
    (hedge : is_valid_transition fromState toState = true)
    (hnodup : (meta.map Prod.fst).Nodup) :
    ∃ s2, transition_document_state s key toState meta false now = .ok s2 ∧
      ∃ obj, lookupObj s2 key = some obj ∧
        tmGet obj.tags "stage" = some toState.value ∧
        tmGet obj.tags "previous_stage" = some fromState.value ∧
        tmGet obj.tags "state_changed_at" = some now ∧
        ∀ p ∈ meta, tmGet obj.tags ("meta_" ++ p.1) = some p.2 := by
  obtain ⟨o, ho⟩ := get_state_lookup s key _ hstate
  refine ⟨_, transition_ok_of_valid s key fromState toState meta now hstate hedge,
    { o with tags := buildTransitionTags (some fromState) toState meta now }, ?_,
    buildTags_stage (some fromState) toState meta now,
    buildTags_previous_some fromState toState meta now,
    buildTags_changed (some fromState) toState meta now,
    fun p hp => buildTags_meta (some fromState) toState meta now hnodup p hp⟩
  rw [lookupObj_put_object_tags, if_pos rfl, ho]
  rfl

/-- Witness for C3: a RAW object transitions to PROCESSING with one metadata entry. -/
theorem transition_valid_edge_updates_witness :
    get_document_state [("k", ⟨"", [("stage", "raw")]⟩)] "k" = .ok (some .raw) ∧
    is_valid_transition .raw .processing = true ∧
    ((List.map Prod.fst [("p", "w1")]).Nodup) ∧
    (∃ s2, transition_document_state [("k", ⟨"", [("stage", "raw")]⟩)] "k" .processing
        [("p", "w1")] false "T" = .ok s2 ∧
      ∃ obj, lookupObj s2 "k" = some obj ∧
        tmGet obj.tags "stage" = some DocumentState.processing.value ∧
        tmGet obj.tags "previous_stage" = some DocumentState.raw.value ∧
        tmGet obj.tags "state_changed_at" = some "T" ∧
        ∀ p ∈ [("p", "w1")], tmGet obj.tags ("meta_" ++ p.1) = some p.2) :=
  ⟨by rfl, by decide, by decide,
    transition_valid_edge_updates [("k", ⟨"", [("stage", "raw")]⟩)] "k" .raw .processing
      [("p", "w1")] "T" (by rfl) (by decide) (by decide)⟩

/-- C10: when the object exists but its stage tag is missing or does not parse to a
known state, the unforced transition succeeds for every target state (validation is
skipped entirely), and the written tag set has stage = toState, a fresh
state_changed_at, and no previous_stage entry. -/
theorem transition_without_state_succeeds
    (s : Store) (key : String) (toState : DocumentState) (meta : TagMap) (now : String)
    (_hex : object_exists s key = true)
    (hstate : get_document_state s key = .ok none) :
    ∃ s2, transition_document_state s key toState meta false now = .ok s2 ∧
      ∃ obj, lookupObj s2 key = some obj ∧
        tmGet obj.tags "stage" = some toState.value ∧
        tmGet obj.tags "state_changed_at" = some now ∧
        tmGet obj.tags "previous_stage" = none := by
  obtain ⟨o, ho⟩ := get_state_lookup s key _ hstate
  refine ⟨_, transition_ok_of_none s key toState meta false now hstate,
    { o with tags := buildTransitionTags none toState meta now }, ?_,
    buildTags_stage none toState meta now,
    buildTags_changed none toState meta now,
    buildTags_previous_none toState meta now⟩
  rw [lookupObj_put_object_tags, if_pos rfl, ho]
  rfl

/-- Witness for C10: an object whose stage tag is the unknown string bogus accepts a
transition straight to FINAL without force, with no previous_stage recorded. -/
theorem transition_without_state_succeeds_witness :
    object_exists [("k", ⟨"", [("stage", "bogus")]⟩)] "k" = true ∧
    get_document_state [("k", ⟨"", [("stage", "bogus")]⟩)] "k" = .ok none ∧
    (∃ s2, transition_document_state [("k", ⟨"", [("stage", "bogus")]⟩)] "k" .final
        [] false "T" = .ok s2 ∧
      ∃ obj, lookupObj s2 "k" = some obj ∧
        tmGet obj.tags "stage" = some DocumentState.final.value ∧
        tmGet obj.tags "state_changed_at" = some "T" ∧
        tmGet obj.tags "previous_stage" = none) :=
  ⟨by decide, by rfl,
    transition_without_state_succeeds [("k", ⟨"", [("stage", "bogus")]⟩)] "k" .final
      [] "T" (by decide) (by rfl)⟩

/-- C9: invalidating the same document twice in immediate succession never fails (the
model is a total function on any cache state) and the second call is a no-op: it
returns the cache state produced by the first call unchanged, with a false flag,
because the content entry and every list-category entry are already absent. -/
theorem invalidate_document_idempotent {V : Type} (c : MemCache V) (docId : String) :
    invalidate_document (invalidate_document c docId).1 docId =
      ((invalidate_document c docId).1, false) := by
  simp only [invalidate_document, invalidate_lists]
  have hnone : lookupMem
      ((delListKeys cacheListTypes (memDelete c (cacheMakeKey "content" docId)).1 0).1)
      (cacheMakeKey "content" docId) = none :=
    delListKeys_preserves_none _ _ _ _
      (memDelete_lookup_self c (cacheMakeKey "content" docId))
  rw [memDelete_absent _ _ hnone]
  rw [delListKeys_absent_id cacheListTypes _ 0
    (fun lt hlt => delListKeys_deletes cacheListTypes _ 0 lt hlt)]

/-! Claim theorems: stuck detection, health, version creation, retry adapter. -/

/-- C8: an object listed in the requested state is included in the stuck-document
result exactly when its state_changed_at tag is missing (absent or empty, which the
source treats as missing), present but unparsable, or parses to a time strictly
older than now minus the timeout. -/
theorem find_stuck_membership
    (s : Store) (state : DocumentState) (timeoutMinutes : Nat) (pre : String)
    (parseTs : String → Option Int) (now : Int) (key : String) (tags : TagMap)
    (hmem : (key, state, tags) ∈ list_documents_by_state s [state] pre 1000) :
    ((∃ t, (key, t, tags) ∈ find_stuck_documents s state timeoutMinutes pre parseTs now) ↔
      (tmGet tags "state_changed_at" = none ∨
        tmGet tags "state_changed_at" = some "" ∨
        (∃ ts, tmGet tags "state_changed_at" = some ts ∧ ts ≠ "" ∧ parseTs ts = none) ∨
        (∃ ts t, tmGet tags "state_changed_at" = some ts ∧ parseTs ts = some t ∧
          t < now - timeoutMinutes))) := by
  unfold find_stuck_documents
  constructor
  · rintro ⟨t, ht⟩
    obtain ⟨p, hp, hfp⟩ := List.mem_filterMap.mp ht
    cases hts : tmGet p.2.2 "state_changed_at" with
    | none =>
      rw [hts] at hfp
      simp only [Option.some.injEq, Prod.mk.injEq] at hfp
      obtain ⟨h1, h2, h3⟩ := hfp
      rw [← h3]
      exact Or.inl hts
    | some ts =>
      rw [hts] at hfp
      by_cases he : ts = ""
      · simp only [if_pos he, Option.some.injEq, Prod.mk.injEq] at hfp
        obtain ⟨h1, h2, h3⟩ := hfp
        subst he
        rw [← h3]
        exact Or.inr (Or.inl hts)
      · simp only [if_neg he] at hfp
        cases hpt : parseTs ts with
        | none =>
          rw [hpt] at hfp
          simp only [Option.some.injEq, Prod.mk.injEq] at hfp
          obtain ⟨h1, h2, h3⟩ := hfp
          rw [← h3]
          exact Or.inr (Or.inr (Or.inl ⟨ts, hts, he, hpt⟩))
        | some tv =>
          rw [hpt] at hfp
          by_cases hlt : tv < now - (timeoutMinutes : Int)
          · simp only [if_pos hlt, Option.some.injEq, Prod.mk.injEq] at hfp
            obtain ⟨h1, h2, h3⟩ := hfp
            rw [← h3]
            exact Or.inr (Or.inr (Or.inr ⟨ts, tv, hts, hpt, hlt⟩))
          · simp only [if_neg hlt] at hfp
            exact Option.noConfusion hfp
  · intro hcond
    cases hts : tmGet tags "state_changed_at" with
    | none =>
      refine ⟨none, List.mem_filterMap.mpr ⟨(key, state, tags), hmem, ?_⟩⟩
      simp [hts]
    | some ts =>
      by_cases he : ts = ""
      · refine ⟨none, List.mem_filterMap.mpr ⟨(key, state, tags), hmem, ?_⟩⟩
        simp [hts, he]
      · cases hpt : parseTs ts with
        | none =>
          refine ⟨none, List.mem_filterMap.mpr ⟨(key, state, tags), hmem, ?_⟩⟩
          simp [hts, he, hpt]
        | some tv =>
          have hlt : tv < now - (timeoutMinutes : Int) := by
            rcases hcond with h | h | ⟨ts2, h2, hne2, hp2⟩ | ⟨ts2, t2, h2, hp2, hlt2⟩
            · rw [hts] at h
              exact Option.noConfusion h
            · rw [hts] at h
              exact absurd (Option.some.inj h) he
            · rw [hts] at h2
              rw [Option.some.inj h2] at hpt
              rw [hpt] at hp2
              exact Option.noConfusion hp2
            · rw [hts] at h2
              rw [Option.some.inj h2] at hpt
              rw [hpt] at hp2
              rw [Option.some.inj hp2]
              exact hlt2
          refine ⟨some tv, List.mem_filterMap.mpr ⟨(key, state, tags), hmem, ?_⟩⟩
          simp [hts, he, hpt, hlt]

/-- Witness for C8: a PROCESSING object whose timestamp is 20 minutes old is stuck
against a 10-minute timeout, while one 2 minutes old is not (parseTs reads the
timestamp strings as minutes). -/
theorem find_stuck_membership_witness :
    (("raw/a/original.pdf", DocumentState.processing, [("stage", "processing"),
        ("state_changed_at", "80")]) ∈ list_documents_by_state
        [("raw/a/original.pdf", ⟨"", [("stage", "processing"),
          ("state_changed_at", "80")]⟩),
         ("raw/b/original.pdf", ⟨"", [("stage", "processing"),
          ("state_changed_at", "98")]⟩)] [.processing] "" 1000) ∧
    ((∃ t, ("raw/a/original.pdf", t, [("stage", "processing"),
        ("state_changed_at", "80")]) ∈ find_stuck_documents
        [("raw/a/original.pdf", ⟨"", [("stage", "processing"),
          ("state_changed_at", "80")]⟩),
         ("raw/b/original.pdf", ⟨"", [("stage", "processing"),
          ("state_changed_at", "98")]⟩)] .processing 10 "" (fun ts => ts.toInt?) 100) ↔
      (tmGet [("stage", "processing"), ("state_changed_at", "80")] "state_changed_at"
          = none ∨
        tmGet [("stage", "processing"), ("state_changed_at", "80")] "state_changed_at"
          = some "" ∨
        (∃ ts, tmGet [("stage", "processing"), ("state_changed_at", "80")]
          "state_changed_at" = some ts ∧ ts ≠ "" ∧ (fun ts => ts.toInt?) ts = none) ∨
        (∃ ts t, tmGet [("stage", "processing"), ("state_changed_at", "80")]
          "state_changed_at" = some ts ∧ (fun ts => ts.toInt?) ts = some t ∧
          t < 100 - (10 : Nat)))) :=
  ⟨by decide,
    find_stuck_membership _ .processing 10 "" (fun ts => ts.toInt?) 100
      "raw/a/original.pdf" [("stage", "processing"), ("state_changed_at", "80")]
      (by decide)⟩

/-- C7: the health status is unhealthy exactly when some document is stuck in
PROCESSING past the 10-minute timeout or the failed count exceeds a tenth of the
total tagged documents; degraded exactly when it is not unhealthy and the failed
count is positive; healthy exactly otherwise. -/
theorem system_health_status_spec (s : Store) (parseTs : String → Option Int) (now : Int) :
    ((get_system_health s parseTs now).status = "unhealthy" ↔
      (0 < stuckCount s .processing 10 parseTs now ∨
        healthTotalDocs s < 10 * healthFailedDocs s)) ∧
    ((get_system_health s parseTs now).status = "degraded" ↔
      (¬ (0 < stuckCount s .processing 10 parseTs now ∨
          healthTotalDocs s < 10 * healthFailedDocs s) ∧
        0 < healthFailedDocs s)) ∧
    ((get_system_health s parseTs now).status = "healthy" ↔
      (¬ (0 < stuckCount s .processing 10 parseTs now ∨
          healthTotalDocs s < 10 * healthFailedDocs s) ∧
        healthFailedDocs s = 0)) := by
  simp only [get_system_health]
  by_cases h1 : 0 < stuckCount s .processing 10 parseTs now ∨
      healthTotalDocs s < 10 * healthFailedDocs s
  · rw [if_pos h1]
    exact ⟨⟨fun _ => h1, fun _ => rfl⟩,
      ⟨fun hc => absurd hc (by decide), fun hx => absurd h1 hx.1⟩,
      ⟨fun hc => absurd hc (by decide), fun hx => absurd h1 hx.1⟩⟩
  · rw [if_neg h1]
    by_cases h2 : 0 < healthFailedDocs s ∨ 0 < stuckCount s .processing 10 parseTs now
    · rw [if_pos h2]
      have hf : 0 < healthFailedDocs s := by
        rcases h2 with h | h
        · exact h
        · exact absurd (Or.inl h) h1
      exact ⟨⟨fun hc => absurd hc (by decide), fun hx => absurd hx h1⟩,
        ⟨fun _ => ⟨h1, hf⟩, fun _ => rfl⟩,
        ⟨fun hc => absurd hc (by decide), fun hx => absurd (hx.2 ▸ hf) (by decide)⟩⟩
    · rw [if_neg h2]
      have hf : healthFailedDocs s = 0 := by
        cases hz : healthFailedDocs s with
        | zero => rfl
        | succ m => exact absurd (Or.inl (by rw [hz] ; exact Nat.succ_pos m)) h2
      exact ⟨⟨fun hc => absurd hc (by decide), fun hx => absurd hx h1⟩,
        ⟨fun hc => absurd hc (by decide), fun hx => absurd (hf ▸ hx.2) (by decide)⟩,
        ⟨fun _ => ⟨h1, hf⟩, fun _ => rfl⟩⟩

/-- C5: create_document_version rejects with VersionAlreadyExistsError and writes
nothing when the target version's primary artifact already exists; when the
structured-artifact write fails after the primary write succeeded, the primary
artifact is deleted as a best-effort rollback (the store returns to its initial
state) and the original exception is re-raised; if the rollback delete itself
fails, the partially written primary artifact persists and the original exception
is still re-raised. -/
theorem create_version_guard_and_rollback
    (s : Store) (docId md json version : String) (meta : TagMap) (now : String) :
    (object_exists s (mdKeyOf docId version) = true →
      ∀ jf rf, create_document_version s docId md json version meta now jf rf =
        (s, .error (.versionAlreadyExists docId version))) ∧
    (object_exists s (mdKeyOf docId version) = false →
      create_document_version s docId md json version meta now true false =
        (s, .error (.s3OperationFailed "put_object_content"))) ∧
    (object_exists s (mdKeyOf docId version) = false →
      create_document_version s docId md json version meta now true true =
        (put_object_content s (mdKeyOf docId version) md
          (createVersionTags docId version now meta),
          .error (.s3OperationFailed "put_object_content"))) := by
  refine ⟨?_, ?_, ?_⟩
  · intro hex jf rf
    simp only [create_document_version]
    rw [hex]
    simp
  · intro hex
    simp only [create_document_version]
    rw [hex]
    have hnone : lookupObj s (mdKeyOf docId version) = none := by
      unfold object_exists at hex
      exact Option.not_isSome_iff_eq_none.mp (by simp [hex])
    simp [delete_put_new s (mdKeyOf docId version) md
      (createVersionTags docId version now meta) hnone]
  · intro hex
    simp only [create_document_version]
    rw [hex]
    simp

/-- Witness for C5: on an empty store a version v1 creation whose JSON write fails
rolls the markdown write back to the empty store; on a store that already holds the
v1 primary artifact, creation is rejected without any write. -/
theorem create_version_guard_and_rollback_witness :
    (object_exists [("processed/d/v1/output.md", (⟨"m", []⟩ : S3Object))]
        (mdKeyOf "d" "v1") = true ∧
      create_document_version [("processed/d/v1/output.md", ⟨"m", []⟩)] "d" "m2" "j2"
        "v1" [] "T" false false =
        ([("processed/d/v1/output.md", ⟨"m", []⟩)],
          .error (.versionAlreadyExists "d" "v1")) ∧
      object_exists ([] : Store) (mdKeyOf "d" "v1") = false ∧
      create_document_version [] "d" "m" "j" "v1" [] "T" true false =
        ([], .error (.s3OperationFailed "put_object_content"))) :=
  ⟨by decide,
    (create_version_guard_and_rollback [("processed/d/v1/output.md", ⟨"m", []⟩)]
      "d" "m2" "j2" "v1" [] "T").1 (by decide) false false,
    by decide,
    (create_version_guard_and_rollback [] "d" "m" "j" "v1" [] "T").2.1 (by decide)⟩

/-- C4 counterexample: a transient backend failure (a ClientError with the throttling
code SlowDown on every attempt) is not retried at all: the decorated operation
raises the converted generic typed error immediately after the first attempt, with
no backoff sleep, and its outcome is not the RetryExhaustedError after three
attempts that the claim requires. -/
theorem retry_claim_counterexample :
    get_object_content_retried (fun _ => .error (.client "SlowDown")) "b" "k" =
      (.error (.s3 (.operationFailed "get_object_content" "b" "k")), []) ∧
    (get_object_content_retried (fun _ => .error (.client "SlowDown")) "b" "k").1 ≠
      .error (.retryExhausted "get_object_content" 3 (.client "SlowDown")) := by
  constructor
  · rfl
  · intro h
    have h2 : PyExc.s3 (.operationFailed "get_object_content" "b" "k") =
        .retryExhausted "get_object_content" 3 (.client "SlowDown") := Except.error.inj h
    exact absurd h2 (by decide)

/-- C4 amended: every adapter operation converts each backend failure into a typed
error inside its body before the retry decorator can observe it, so the decorated
operation performs exactly one underlying attempt for every backend behaviour: its
outcome is the converted outcome of attempt zero, no backoff sleep is performed,
and RetryExhaustedError is never raised. -/
theorem retried_operation_single_attempt (behave : Nat → Except BackendErr String)
    (bucket key : String) :
    get_object_content_retried behave bucket key =
      ((get_object_content_attempt behave bucket key 0).mapError PyExc.s3, []) := by
  unfold get_object_content_retried retry_with_backoff
  cases hb : get_object_content_attempt behave bucket key 0 with
  | ok a =>
    unfold retryLoop
    rw [hb]
    rfl
  | error e =>
    unfold retryLoop
    rw [hb]
    rfl

/-! Lemmas about the version listing. -/

theorem mem_list_objects_with_prefix (s : Store) (pre : String) (k : String)
    (hs : s.length ≤ 1000) :
    k ∈ list_objects_with_prefix s pre 1000 ↔
      ∃ o, (k, o) ∈ s ∧ strStartsWith k pre = true := by
  unfold list_objects_with_prefix
  rw [List.take_of_length_le]
  · constructor
    · intro h
      obtain ⟨p, hp, hk⟩ := List.mem_map.mp h
      obtain ⟨hmem, hpre⟩ := List.mem_filter.mp hp
      exact ⟨p.2, by rw [← hk] ; exact hmem, by rw [← hk] ; simpa using hpre⟩
    · rintro ⟨o, hmem, hpre⟩
      exact List.mem_map.mpr ⟨(k, o), List.mem_filter.mpr ⟨hmem, by simpa using hpre⟩, rfl⟩
  · have h1 : ((List.filter (fun p => strStartsWith p.1 pre) s).map
        (fun p => p.1)).length ≤ s.length := by
      rw [List.length_map]
      exact List.length_filter_le _ _
    exact le_trans h1 hs

theorem wf_key_cases (s : Store) (docId k : String) (o : S3Object)
    (hwf : wellFormedFor s docId = true) (hmem : (k, o) ∈ s)
    (hpre : strStartsWith k (versionDirOf docId) = true) :
    k = pointerKeyOf docId ∨ ∃ v, validVersionString v = true ∧
      (k = mdKeyOf docId v ∨ k = jsonKeyOf docId v) := by
  have h := (List.all_eq_true.mp hwf) (k, o) hmem
  rw [Bool.or_eq_true, Bool.not_eq_true'] at h
  rcases h with h | h
  · rw [hpre] at h
    cases h
  · unfold canonicalKeyB at h
    by_cases hp : k = pointerKeyOf docId
    · exact Or.inl hp
    · rw [if_neg hp] at h
      cases hv : (splitKey k).get? 2 with
      | none => rw [hv] at h ; cases h
      | some v =>
        rw [hv] at h
        rw [Bool.and_eq_true, Bool.or_eq_true] at h
        obtain ⟨hvalid, hor⟩ := h
        refine Or.inr ⟨v, hvalid, ?_⟩
        rcases hor with h1 | h1
        · exact Or.inl (of_decide_eq_true h1)
        · exact Or.inr (of_decide_eq_true h1)

theorem fst_assocUpdate (acc : List (String × VersionFlags)) (v2 k : String) :
    (assocUpdate acc v2 k).map Prod.fst =
      if v2 ∈ acc.map Prod.fst then acc.map Prod.fst
      else acc.map Prod.fst ++ [v2] := by
  induction acc with
  | nil => simp [assocUpdate]
  | cons p rest ih =>
    obtain ⟨pv, pfl⟩ := p
    by_cases hp : pv = v2
    · subst hp
      simp [assocUpdate]
    · have hp2 : ¬ (v2 = pv) := fun h => hp h.symm
      simp only [assocUpdate, if_neg hp, List.map_cons, ih]
      by_cases hm : v2 ∈ rest.map Prod.fst
      · simp [hm, hp2]
      · simp [hm, hp2]

theorem mem_fst_assocUpdate (acc : List (String × VersionFlags)) (v v2 k : String) :
    v ∈ (assocUpdate acc v2 k).map Prod.fst ↔ v ∈ acc.map Prod.fst ∨ v = v2 := by
  rw [fst_assocUpdate]
  by_cases hm : v2 ∈ acc.map Prod.fst
  · rw [if_pos hm]
    constructor
    · exact Or.inl
    · rintro (h | h)
      · exact h
      · rw [h]
        exact hm
  · rw [if_neg hm]
    simp

theorem exists_fl_iff_mem_fst (l : List (String × VersionFlags)) (v : String) :
    (∃ fl, (v, fl) ∈ l) ↔ v ∈ l.map Prod.fst := by
  constructor
  · rintro ⟨fl, hfl⟩
    exact List.mem_map.mpr ⟨(v, fl), hfl, rfl⟩
  · intro h
    obtain ⟨p, hp, hv⟩ := List.mem_map.mp h
    refine ⟨p.2, ?_⟩
    rw [← hv]
    exact hp

theorem mem_fst_collect_aux (keys : List String) (acc : List (String × VersionFlags))
    (v : String) :
    v ∈ (keys.foldl (fun acc key =>
        match versionOfKey key with
        | some v2 => assocUpdate acc v2 key
        | none => acc) acc).map Prod.fst ↔
      (v ∈ acc.map Prod.fst ∨ ∃ k ∈ keys, versionOfKey k = some v) := by
  induction keys generalizing acc with
  | nil => simp
  | cons key rest ih =>
    rw [List.foldl_cons]
    cases hv : versionOfKey key with
    | none =>
      rw [ih]
      constructor
      · rintro (h | ⟨k, hk, hvk⟩)
        · exact Or.inl h
        · exact Or.inr ⟨k, List.mem_cons_of_mem _ hk, hvk⟩
      · rintro (h | ⟨k, hk, hvk⟩)
        · exact Or.inl h
        · rcases List.mem_cons.mp hk with heq | hmem
          · rw [heq] at hvk
            rw [hvk] at hv
            cases hv
          · exact Or.inr ⟨k, hmem, hvk⟩
    | some v2 =>
      rw [ih, mem_fst_assocUpdate]
      constructor
      · rintro ((h | hveq) | ⟨k, hk, hvk⟩)
        · exact Or.inl h
        · refine Or.inr ⟨key, List.mem_cons_self _ _, ?_⟩
          rw [hveq]
          exact hv
        · exact Or.inr ⟨k, List.mem_cons_of_mem _ hk, hvk⟩
      · rintro (h | ⟨k, hk, hvk⟩)
        · exact Or.inl (Or.inl h)
        · rcases List.mem_cons.mp hk with heq | hmem
          · rw [heq] at hvk
            exact Or.inl (Or.inr (Option.some.inj (hv.symm.trans hvk)).symm)
          · exact Or.inr ⟨k, hmem, hvk⟩

theorem mem_collectVersions (keys : List String) (v : String) :
    (∃ fl, (v, fl) ∈ collectVersions keys) ↔ ∃ k ∈ keys, versionOfKey k = some v := by
  unfold collectVersions
  rw [exists_fl_iff_mem_fst, mem_fst_collect_aux]
  simp

theorem hydrate_version (s : Store) (docId : String) (p : String × VersionFlags) :
    (hydrate s docId p).version = p.1 := by
  unfold hydrate
  cases lookupObj s (mdKeyOf docId p.1) <;> rfl

theorem hydrate_state_none (s : Store) (docId : String) (p : String × VersionFlags)
    (hl : lookupObj s (mdKeyOf docId p.1) = none) :
    (hydrate s docId p).state = none := by
  simp [hydrate, hl]

theorem hydrate_state_some (s : Store) (docId : String) (p : String × VersionFlags)
    (obj : S3Object) (hl : lookupObj s (mdKeyOf docId p.1) = some obj) :
    (hydrate s docId p).state = tmGet obj.tags "stage" := by
  simp [hydrate, hl]

theorem mem_ldv (s : Store) (docId : String) (vi : VersionInfo) :
    vi ∈ list_document_versions s docId ↔
      ∃ p ∈ collectVersions ( list_objects_with_prefix s (versionDirOf docId) 1000),
        vi = hydrate s docId p := by
  unfold list_document_versions
  rw [List.mem_insertionSort, List.mem_map]
  constructor
  · rintro ⟨p, hp, hvi⟩
    exact ⟨p, hp, hvi.symm⟩
  · rintro ⟨p, hp, hvi⟩
    exact ⟨p, hp, hvi.symm⟩

theorem ldv_state_sound (s : Store) (docId : String) (vi : VersionInfo) (st : String)
    (hvi : vi ∈ list_document_versions s docId) (hst : vi.state = some st) :
    ∃ obj, lookupObj s (mdKeyOf docId vi.version) = some obj ∧
      tmGet obj.tags "stage" = some st := by
  obtain ⟨p, hp, hhy⟩ := (mem_ldv s docId vi).mp hvi
  subst hhy
  rw [hydrate_version]
  cases hl : lookupObj s (mdKeyOf docId p.1) with
  | none =>
    rw [hydrate_state_none s docId p hl] at hst
    cases hst
  | some obj =>
    rw [hydrate_state_some s docId p obj hl] at hst
    exact ⟨obj, rfl, hst⟩

theorem ldv_version_valid (s : Store) (docId : String) (vi : VersionInfo)
    (hs : s.length ≤ 1000) (hd : noSlash docId = true)
    (hwf : wellFormedFor s docId = true)
    (hvi : vi ∈ list_document_versions s docId) :
    validVersionString vi.version = true := by
  obtain ⟨p, hp, hhy⟩ := (mem_ldv s docId vi).mp hvi
  subst hhy
  rw [hydrate_version]
  obtain ⟨k, hk, hvk⟩ := (mem_collectVersions _ p.1).mp ⟨p.2, hp⟩
  obtain ⟨o, hmem, hpre⟩ := ( mem_list_objects_with_prefix s _ k hs).mp hk
  rcases wf_key_cases s docId k o hwf hmem hpre with hptr | ⟨w, hw, hkey⟩
  · rw [hptr, versionOfKey_pointerKeyOf docId hd] at hvk
    cases hvk
  · rcases hkey with hkey | hkey
    · rw [hkey, versionOfKey_mdKeyOf docId w hd hw] at hvk
      rw [← Option.some.inj hvk]
      exact hw
    · rw [hkey, versionOfKey_jsonKeyOf docId w hd hw] at hvk
      rw [← Option.some.inj hvk]
      exact hw

theorem ldv_complete (s : Store) (docId v : String) (obj : S3Object)
    (hs : s.length ≤ 1000) (hd : noSlash docId = true)
    (hv : validVersionString v = true)
    (hobj : lookupObj s (mdKeyOf docId v) = some obj) :
    ∃ vi ∈ list_document_versions s docId, vi.version = v ∧
      vi.state = tmGet obj.tags "stage" := by
  have hkmem : mdKeyOf docId v ∈ list_objects_with_prefix s (versionDirOf docId) 1000 :=
    ( mem_list_objects_with_prefix s _ _ hs).mpr
      ⟨obj, mem_of_lookupObj s _ obj hobj, strStartsWith_mdKeyOf docId v⟩
  obtain ⟨fl, hfl⟩ := (mem_collectVersions _ v).mpr
    ⟨mdKeyOf docId v, hkmem, versionOfKey_mdKeyOf docId v hd hv⟩
  exact ⟨hydrate s docId (v, fl), (mem_ldv s docId _).mpr ⟨(v, fl), hfl, rfl⟩,
    hydrate_version s docId (v, fl), hydrate_state_some s docId (v, fl) obj hobj⟩

theorem scan_found_sound (s : Store) (docId : String) (oldInfo : VersionInfo)
    (hfind : (list_document_versions s docId).find?
      (fun vi => vi.state = some "final") = some oldInfo) :
    isFinalVersionB s docId oldInfo.version = true := by
  have hmem := List.mem_of_find?_eq_some hfind
  have hpred := List.find?_some hfind
  have hstate : oldInfo.state = some "final" := by simpa using hpred
  obtain ⟨obj, ho, ht⟩ := ldv_state_sound s docId oldInfo "final" hmem hstate
  unfold isFinalVersionB
  rw [ho]
  simp [ht]

theorem final_version_valid (s : Store) (docId v : String)
    (hwf : wellFormedFor s docId = true)
    (hf : isFinalVersionB s docId v = true) :
    validVersionString v = true := by
  unfold isFinalVersionB at hf
  cases hl : lookupObj s (mdKeyOf docId v) with
  | none => rw [hl] at hf ; cases hf
  | some obj =>
    have hmem := mem_of_lookupObj s _ obj hl
    rcases wf_key_cases s docId _ obj hwf hmem (strStartsWith_mdKeyOf docId v)
      with hptr | ⟨w, hw, hkey⟩
    · exact absurd hptr (mdKeyOf_ne_pointerKeyOf docId v docId)
    · rcases hkey with hkey | hkey
      · rw [mdKeyOf_inj docId v w hkey]
        exact hw
      · exact absurd hkey (mdKeyOf_ne_jsonKeyOf docId v docId w)

theorem scan_none_no_final (s : Store) (docId : String)
    (hs : s.length ≤ 1000) (hd : noSlash docId = true)
    (hwf : wellFormedFor s docId = true)
    (hfind : (list_document_versions s docId).find?
      (fun vi => vi.state = some "final") = none) :
    ∀ v, isFinalVersionB s docId v = false := by
  intro v
  cases hfv : isFinalVersionB s docId v with
  | false => rfl
  | true =>
    exfalso
    have hvalid := final_version_valid s docId v hwf hfv
    unfold isFinalVersionB at hfv
    cases hl : lookupObj s (mdKeyOf docId v) with
    | none => rw [hl] at hfv ; cases hfv
    | some obj =>
      rw [hl] at hfv
      have htag : tmGet obj.tags "stage" = some "final" := by simpa using hfv
      obtain ⟨vi, hvi, hver, hstate⟩ := ldv_complete s docId v obj hs hd hvalid hl
      have hnone := List.find?_eq_none.mp hfind vi hvi
      rw [hstate, htag] at hnone
      simp at hnone

/-! Claim C6: current-version resolution. -/

theorem stateIsFinal_true_iff (s : Store) (k : String) :
    stateIsFinal s k = true ↔ get_document_state s k = .ok (some .final) := by
  unfold stateIsFinal
  cases hg : get_document_state s k with
  | error e => simp
  | ok cur =>
    cases cur with
    | none => simp
    | some st => cases st <;> simp

theorem gcv_cases (s : Store) (docId : String) :
    get_current_document_version s docId =
      match lookupObj s (pointerKeyOf docId) with
      | some po =>
        if object_exists s (mdKeyOf docId (strTrim po.content)) &&
            stateIsFinal s (mdKeyOf docId (strTrim po.content))
        then some (strTrim po.content)
        else Option.map (fun vi => vi.version)
          ((list_document_versions s docId).find? (fun vi => vi.state = some "final"))
      | none => Option.map (fun vi => vi.version)
          ((list_document_versions s docId).find? (fun vi => vi.state = some "final")) := by
  simp only [get_current_document_version]
  cases hpo : lookupObj s (pointerKeyOf docId) with
  | none =>
    cases hf : (list_document_versions s docId).find? (fun vi => vi.state = some "final") <;>
      simp [hf]
  | some po =>
    by_cases hb : (object_exists s (mdKeyOf docId (strTrim po.content)) &&
        stateIsFinal s (mdKeyOf docId (strTrim po.content))) = true
    · simp [hb]
    · rw [Bool.not_eq_true] at hb
      cases hf : (list_document_versions s docId).find?
          (fun vi => vi.state = some "final") <;> simp [hb, hf]

/-- C6: the current-version lookup prefers the pointer only after validating it (the
pointed-to version's primary artifact exists and is FINAL, third conjunct), any
version it returns reads as FINAL (first conjunct), and it returns none exactly
when no version of the document reads as FINAL (second conjunct). -/
theorem get_current_version_spec (s : Store) (docId : String)
    (hs : s.length ≤ 1000) (hd : noSlash docId = true)
    (hwf : wellFormedFor s docId = true) :
    (∀ v, get_current_document_version s docId = some v →
        isFinalVersionB s docId v = true) ∧
    (get_current_document_version s docId = none ↔
      ∀ v, isFinalVersionB s docId v = false) ∧
    (∀ po p, lookupObj s (pointerKeyOf docId) = some po →
        strTrim po.content = p →
        get_document_state s (mdKeyOf docId p) = .ok (some .final) →
        get_current_document_version s docId = some p) := by
  refine ⟨?_, ⟨?_, ?_⟩, ?_⟩
  · intro v h
    rw [gcv_cases] at h
    cases hpo : lookupObj s (pointerKeyOf docId) with
    | none =>
      rw [hpo] at h
      have h2 : Option.map (fun vi => vi.version)
          ((list_document_versions s docId).find?
            (fun vi => vi.state = some "final")) = some v := h
      obtain ⟨vi, hfind, hv⟩ := Option.map_eq_some'.mp h2
      rw [← hv]
      exact scan_found_sound s docId vi hfind
    | some po =>
      rw [hpo] at h
      have h2 : (if object_exists s (mdKeyOf docId (strTrim po.content)) &&
            stateIsFinal s (mdKeyOf docId (strTrim po.content))
          then some (strTrim po.content)
          else Option.map (fun vi => vi.version)
            ((list_document_versions s docId).find?
              (fun vi => vi.state = some "final"))) = some v := h
      by_cases hb : (object_exists s (mdKeyOf docId (strTrim po.content)) &&
          stateIsFinal s (mdKeyOf docId (strTrim po.content))) = true
      · rw [if_pos hb] at h2
        have hv := Option.some.inj h2
        have hsf : stateIsFinal s (mdKeyOf docId (strTrim po.content)) = true :=
          ((Bool.and_eq_true _ _).mp hb).2
        have hgs := (stateIsFinal_true_iff _ _).mp hsf
        obtain ⟨o, ho⟩ := get_state_lookup _ _ _ hgs
        have htag := get_state_final_tag _ _ o ho hgs
        unfold isFinalVersionB
        rw [← hv, ho]
        simp [htag]
      · rw [if_neg hb] at h2
        obtain ⟨vi, hfind, hv⟩ := Option.map_eq_some'.mp h2
        rw [← hv]
        exact scan_found_sound s docId vi hfind
  · intro h v
    rw [gcv_cases] at h
    cases hpo : lookupObj s (pointerKeyOf docId) with
    | none =>
      rw [hpo] at h
      have h2 : Option.map (fun vi => vi.version)
          ((list_document_versions s docId).find?
            (fun vi => vi.state = some "final")) = none := h
      exact scan_none_no_final s docId hs hd hwf (Option.map_eq_none'.mp h2) v
    | some po =>
      rw [hpo] at h
      have h2 : (if object_exists s (mdKeyOf docId (strTrim po.content)) &&
            stateIsFinal s (mdKeyOf docId (strTrim po.content))
          then some (strTrim po.content)
          else Option.map (fun vi => vi.version)
            ((list_document_versions s docId).find?
              (fun vi => vi.state = some "final"))) = none := h
      by_cases hb : (object_exists s (mdKeyOf docId (strTrim po.content)) &&
          stateIsFinal s (mdKeyOf docId (strTrim po.content))) = true
      · rw [if_pos hb] at h2
        exact Option.noConfusion h2
      · rw [if_neg hb] at h2
        exact scan_none_no_final s docId hs hd hwf (Option.map_eq_none'.mp h2) v
  · intro hall
    rw [gcv_cases]
    have hfind : (list_document_versions s docId).find?
        (fun vi => vi.state = some "final") = none := by
      cases hf : (list_document_versions s docId).find?
          (fun vi => vi.state = some "final") with
      | none => rfl
      | some vi =>
        have hsf := scan_found_sound s docId vi hf
        rw [hall vi.version] at hsf
        cases hsf
    cases hpo : lookupObj s (pointerKeyOf docId) with
    | none =>
      show Option.map (fun vi => vi.version)
        ((list_document_versions s docId).find?
          (fun vi => vi.state = some "final")) = none
      rw [hfind]
      rfl
    | some po =>
      show (if object_exists s (mdKeyOf docId (strTrim po.content)) &&
            stateIsFinal s (mdKeyOf docId (strTrim po.content))
          then some (strTrim po.content)
          else Option.map (fun vi => vi.version)
            ((list_document_versions s docId).find?
              (fun vi => vi.state = some "final"))) = none
      by_cases hb : (object_exists s (mdKeyOf docId (strTrim po.content)) &&
          stateIsFinal s (mdKeyOf docId (strTrim po.content))) = true
      · exfalso
        have hsf := ((Bool.and_eq_true _ _).mp hb).2
        have hgs := (stateIsFinal_true_iff _ _).mp hsf
        obtain ⟨o, ho⟩ := get_state_lookup _ _ _ hgs
        have htag := get_state_final_tag _ _ o ho hgs
        have hfin : isFinalVersionB s docId (strTrim po.content) = true := by
          unfold isFinalVersionB
          rw [ho]
          simp [htag]
        rw [hall (strTrim po.content)] at hfin
        cases hfin
      · rw [if_neg hb, hfind]
        rfl
  · intro po p hpo htrim hstate
    rw [gcv_cases, hpo]
    show (if object_exists s (mdKeyOf docId (strTrim po.content)) &&
          stateIsFinal s (mdKeyOf docId (strTrim po.content))
        then some (strTrim po.content)
        else Option.map (fun vi => vi.version)
          ((list_document_versions s docId).find?
            (fun vi => vi.state = some "final"))) = some p
    obtain ⟨o, ho⟩ := get_state_lookup _ _ _ hstate
    have hex2 : object_exists s (mdKeyOf docId (strTrim po.content)) = true := by
      rw [htrim]
      unfold object_exists
      rw [ho]
      rfl
    have hsf : stateIsFinal s (mdKeyOf docId (strTrim po.content)) = true := by
      rw [htrim]
      exact (stateIsFinal_true_iff _ _).mpr hstate
    rw [if_pos (by rw [hex2, hsf] ; rfl), htrim]

/-- Witness for C6: a store with a single FINAL version v1 and a valid pointer to it;
the lookup returns v1 from the pointer, and the characterization holds. -/
theorem get_current_version_spec_witness :
    ([("processed/d/v1/output.md", (⟨"m", [("stage", "final")]⟩ : S3Object)),
      ("processed/d/v1/output.json", ⟨"j", [("stage", "final")]⟩),
      ("processed/d/current_version.txt", ⟨"v1", [("stage", "metadata")]⟩)] :
        Store).length ≤ 1000 ∧
    noSlash "d" = true ∧
    wellFormedFor [("processed/d/v1/output.md", ⟨"m", [("stage", "final")]⟩),
      ("processed/d/v1/output.json", ⟨"j", [("stage", "final")]⟩),
      ("processed/d/current_version.txt", ⟨"v1", [("stage", "metadata")]⟩)] "d" = true ∧
    ((∀ v, get_current_document_version
        [("processed/d/v1/output.md", ⟨"m", [("stage", "final")]⟩),
         ("processed/d/v1/output.json", ⟨"j", [("stage", "final")]⟩),
         ("processed/d/current_version.txt", ⟨"v1", [("stage", "metadata")]⟩)] "d"
          = some v →
        isFinalVersionB [("processed/d/v1/output.md", ⟨"m", [("stage", "final")]⟩),
          ("processed/d/v1/output.json", ⟨"j", [("stage", "final")]⟩),
          ("processed/d/current_version.txt", ⟨"v1", [("stage", "metadata")]⟩)] "d" v
          = true) ∧
      (get_current_document_version
        [("processed/d/v1/output.md", ⟨"m", [("stage", "final")]⟩),
         ("processed/d/v1/output.json", ⟨"j", [("stage", "final")]⟩),
         ("processed/d/current_version.txt", ⟨"v1", [("stage", "metadata")]⟩)] "d"
          = none ↔
        ∀ v, isFinalVersionB [("processed/d/v1/output.md", ⟨"m", [("stage", "final")]⟩),
          ("processed/d/v1/output.json", ⟨"j", [("stage", "final")]⟩),
          ("processed/d/current_version.txt", ⟨"v1", [("stage", "metadata")]⟩)] "d" v
          = false) ∧
      (∀ po p, lookupObj [("processed/d/v1/output.md", ⟨"m", [("stage", "final")]⟩),
          ("processed/d/v1/output.json", ⟨"j", [("stage", "final")]⟩),
          ("processed/d/current_version.txt", ⟨"v1", [("stage", "metadata")]⟩)]
          (pointerKeyOf "d") = some po →
        strTrim po.content = p →
        get_document_state [("processed/d/v1/output.md", ⟨"m", [("stage", "final")]⟩),
          ("processed/d/v1/output.json", ⟨"j", [("stage", "final")]⟩),
          ("processed/d/current_version.txt", ⟨"v1", [("stage", "metadata")]⟩)]
          (mdKeyOf "d" p) = .ok (some .final) →
        get_current_document_version
          [("processed/d/v1/output.md", ⟨"m", [("stage", "final")]⟩),
           ("processed/d/v1/output.json", ⟨"j", [("stage", "final")]⟩),
           ("processed/d/current_version.txt", ⟨"v1", [("stage", "metadata")]⟩)] "d"
          = some p)) :=
  ⟨by decide, by decide, by decide,
    get_current_version_spec
      [("processed/d/v1/output.md", ⟨"m", [("stage", "final")]⟩),
       ("processed/d/v1/output.json", ⟨"j", [("stage", "final")]⟩),
       ("processed/d/current_version.txt", ⟨"v1", [("stage", "metadata")]⟩)] "d"
      (by decide) (by decide) (by decide)⟩

/-! Helper lemmas for the approval invariant. -/

theorem isFinalB_putTags_other (s : Store) (docId v k : String) (tags : TagMap)
    (hne : mdKeyOf docId v ≠ k) :
    isFinalVersionB (put_object_tags s k tags) docId v = isFinalVersionB s docId v := by
  unfold isFinalVersionB
  rw [lookupObj_put_object_tags, if_neg hne]

theorem isFinalB_putTags_nonfinal (s : Store) (docId v k : String) (tags : TagMap)
    (hk : mdKeyOf docId v = k) (ht : tmGet tags "stage" ≠ some "final") :
    isFinalVersionB (put_object_tags s k tags) docId v = false := by
  unfold isFinalVersionB
  rw [lookupObj_put_object_tags, if_pos hk]
  cases hc : lookupObj s k <;> simp [ht]

theorem isFinalB_put_content_other (s : Store) (docId v k c : String) (tags : TagMap)
    (hne : mdKeyOf docId v ≠ k) :
    isFinalVersionB (put_object_content s k c tags) docId v = isFinalVersionB s docId v := by
  unfold isFinalVersionB
  rw [lookupObj_put_object_content, if_neg hne]

theorem mdKeyOf_ne (docId v w : String) (h : v ≠ w) : mdKeyOf docId v ≠ mdKeyOf docId w :=
  fun he => h (mdKeyOf_inj docId v w he)

theorem no_final_after_archive_md (s : Store) (docId oldv : String) (tags : TagMap)
    (hinv : atMostOneFinal s docId)
    (hold : isFinalVersionB s docId oldv = true)
    (ht : tmGet tags "stage" ≠ some "final") :
    ∀ v, isFinalVersionB (put_object_tags s (mdKeyOf docId oldv) tags) docId v = false := by
  intro v
  by_cases hveq : mdKeyOf docId v = mdKeyOf docId oldv
  · exact isFinalB_putTags_nonfinal s docId v _ tags hveq ht
  · rw [isFinalB_putTags_other s docId v _ tags hveq]
    cases hfv : isFinalVersionB s docId v with
    | false => rfl
    | true => exact absurd (congrArg (mdKeyOf docId) (hinv v oldv hfv hold)) hveq

theorem no_final_preserved_json (s : Store) (docId d2 w : String) (tags : TagMap)
    (hall : ∀ v, isFinalVersionB s docId v = false) :
    ∀ v, isFinalVersionB (put_object_tags s (jsonKeyOf d2 w) tags) docId v = false := by
  intro v
  rw [isFinalB_putTags_other s docId v _ tags (mdKeyOf_ne_jsonKeyOf docId v d2 w)]
  exact hall v

theorem only_target_of_no_final (s : Store) (docId tgt : String)
    (hall : ∀ v, isFinalVersionB s docId v = false) :
    ∀ v, isFinalVersionB s docId v = true → v = tgt := by
  intro v hv
  rw [hall v] at hv
  cases hv

theorem only_target_after_final_md (s : Store) (docId tgt : String) (tags : TagMap)
    (honly : ∀ v, isFinalVersionB s docId v = true → v = tgt) :
    ∀ v, isFinalVersionB (put_object_tags s (mdKeyOf docId tgt) tags) docId v = true →
      v = tgt := by
  intro v hv
  by_cases hveq : mdKeyOf docId v = mdKeyOf docId tgt
  · exact mdKeyOf_inj docId v tgt hveq
  · rw [isFinalB_putTags_other s docId v _ tags hveq] at hv
    exact honly v hv

theorem only_target_preserved_json (s : Store) (docId d2 w tgt : String) (tags : TagMap)
    (honly : ∀ v, isFinalVersionB s docId v = true → v = tgt) :
    ∀ v, isFinalVersionB (put_object_tags s (jsonKeyOf d2 w) tags) docId v = true →
      v = tgt := by
  intro v hv
  rw [isFinalB_putTags_other s docId v _ tags (mdKeyOf_ne_jsonKeyOf docId v d2 w)] at hv
  exact honly v hv

theorem only_target_preserved_pointer (s : Store) (docId d2 tgt c : String) (tags : TagMap)
    (honly : ∀ v, isFinalVersionB s docId v = true → v = tgt) :
    ∀ v, isFinalVersionB (put_object_content s (pointerKeyOf d2) c tags) docId v = true →
      v = tgt := by
  intro v hv
  rw [isFinalB_put_content_other s docId v _ c tags (mdKeyOf_ne_pointerKeyOf docId v d2)]
    at hv
  exact honly v hv

theorem atMostOne_of_only (s : Store) (docId tgt : String)
    (honly : ∀ v, isFinalVersionB s docId v = true → v = tgt) :
    atMostOneFinal s docId :=
  fun v w hv hw => (honly v hv).trans (honly w hw).symm

theorem atMostOne_of_no_final (s : Store) (docId : String)
    (hall : ∀ v, isFinalVersionB s docId v = false) :
    atMostOneFinal s docId := by
  intro v w hv _
  rw [hall v] at hv
  cases hv


/-! Claim C1: the approval protocol preserves the single-FINAL invariant. -/

/-- C1: on a well-formed store where at most one version of the document is FINAL, a
successful approve_document_version call preserves that invariant at every
observation point of the call: the returned trace holds the store before the call,
after each archival write to the previously FINAL version's artifacts (performed
first, when such a version exists and differs from the target), after each
finalising write to the target's artifacts (performed only then), and after the
pointer write; in every one of those stores at most one version reads as FINAL. -/
theorem approve_preserves_at_most_one_final
    (s : Store) (docId version : String) (approver : TagMap) (now : String)
    (trace : List Store)
    (hs : s.length ≤ 1000) (hd : noSlash docId = true)
    (hwf : wellFormedFor s docId = true)
    (hinv : atMostOneFinal s docId)
    (hsucc : approve_document_version s docId version approver now = .ok trace) :
    ∀ s2 ∈ trace, atMostOneFinal s2 docId := by
  simp only [approve_document_version] at hsucc
  split at hsucc
  · exact Except.noConfusion hsucc
  · split at hsucc
    · exact Except.noConfusion hsucc
    · split at hsucc
      · exact Except.noConfusion hsucc
      · rename_i current hstate hnd
        split at hsucc
        · exact Except.noConfusion hsucc
        · rename_i harch archiveTrace s₂ heqarch
          split at hsucc
          · exact Except.noConfusion hsucc
          · rename_i s₃ htr3
            split at hsucc
            · exact Except.noConfusion hsucc
            · rename_i s₄ htr4
              have htrace := (Except.ok.inj hsucc).symm
              -- an "only the target is final" fact for s₂, by cases on the archive step
              have honly2 : ∀ v, isFinalVersionB s₂ docId v = true → v = version := by
                split at heqarch
                · rename_i oldv hcf
                  split at heqarch
                  · rename_i holdne
                    split at heqarch
                    · exact Except.noConfusion heqarch
                    · rename_i s₁ htr1
                      split at heqarch
                      · exact Except.noConfusion heqarch
                      · rename_i s₂x htr2
                        have hpair := Except.ok.inj heqarch
                        have hs₂ : s₂x = s₂ := congrArg Prod.snd hpair
                        -- old version is FINAL in s
                        obtain ⟨oldInfo, hfind, hver⟩ := Option.map_eq_some'.mp hcf
                        have holdfin : isFinalVersionB s docId oldv = true := by
                          rw [← hver]
                          exact scan_found_sound s docId oldInfo hfind
                        -- archive the old primary artifact: no final version remains
                        obtain ⟨cur1, hg1, hs1eq⟩ :=
                          transition_ok_inv s (mdKeyOf docId oldv) .archived [] false now s₁ htr1
                        have hall1 : ∀ v, isFinalVersionB s₁ docId v = false := by
                          rw [hs1eq]
                          refine no_final_after_archive_md s docId oldv _ hinv holdfin ?_
                          rw [buildTags_stage]
                          decide
                        -- archive the old structured artifact: still no final version
                        obtain ⟨cur2, hg2, hs2eq⟩ :=
                          transition_ok_inv s₁ (jsonKeyOf docId oldv) .archived [] false now s₂x htr2
                        have hall2 : ∀ v, isFinalVersionB s₂x docId v = false := by
                          rw [hs2eq]
                          exact no_final_preserved_json s₁ docId docId oldv _ hall1
                        rw [← hs₂]
                        exact only_target_of_no_final s₂x docId version hall2
                  · rename_i holdeq
                    have hpair := Except.ok.inj heqarch
                    have hseq : s = s₂ := congrArg Prod.snd hpair
                    have holdv : oldv = version := not_not.mp holdeq
                    obtain ⟨oldInfo, hfind, hver⟩ := Option.map_eq_some'.mp hcf
                    have holdfin : isFinalVersionB s docId version = true := by
                      rw [← holdv, ← hver]
                      exact scan_found_sound s docId oldInfo hfind
                    rw [← hseq]
                    intro v hv
                    exact hinv v version hv holdfin
                · rename_i hcf
                  have hpair := Except.ok.inj heqarch
                  have hseq : s = s₂ := congrArg Prod.snd hpair
                  have hall : ∀ v, isFinalVersionB s docId v = false :=
                    scan_none_no_final s docId hs hd hwf (Option.map_eq_none'.mp hcf)
                  rw [← hseq]
                  exact only_target_of_no_final s docId version hall
              -- the finalisation steps keep the target as the only final version
              obtain ⟨cur3, hg3, hs3eq⟩ := transition_ok_inv s₂ (mdKeyOf docId version) .final
                (tmInsert approver "approved_at" now) false now s₃ htr3
              have honly3 : ∀ v, isFinalVersionB s₃ docId v = true → v = version := by
                rw [hs3eq]
                exact only_target_after_final_md s₂ docId version _ honly2
              obtain ⟨cur4, hg4, hs4eq⟩ := transition_ok_inv s₃ (jsonKeyOf docId version) .final
                (tmInsert approver "approved_at" now) false now s₄ htr4
              have honly4 : ∀ v, isFinalVersionB s₄ docId v = true → v = version := by
                rw [hs4eq]
                exact only_target_preserved_json s₃ docId docId version version _ honly3
              have honly5 : ∀ v, isFinalVersionB (put_object_content s₄ (pointerKeyOf docId)
                  version [("stage", "metadata"), ("doc_id", docId), ("points_to", version)])
                  docId v = true → v = version :=
                only_target_preserved_pointer s₄ docId docId version version _ honly4
              -- the intermediate stores of the archive steps carry no final version at all
              have harchinv : ∀ s2 ∈ archiveTrace, atMostOneFinal s2 docId := by
                split at heqarch
                · rename_i oldv hcf
                  split at heqarch
                  · rename_i holdne
                    split at heqarch
                    · exact Except.noConfusion heqarch
                    · rename_i s₁ htr1
                      split at heqarch
                      · exact Except.noConfusion heqarch
                      · rename_i s₂x htr2
                        have hpair := Except.ok.inj heqarch
                        have hat : archiveTrace = [s₁, s₂x] := (congrArg Prod.fst hpair).symm
                        obtain ⟨oldInfo, hfind, hver⟩ := Option.map_eq_some'.mp hcf
                        have holdfin : isFinalVersionB s docId oldv = true := by
                          rw [← hver]
                          exact scan_found_sound s docId oldInfo hfind
                        obtain ⟨cur1, hg1, hs1eq⟩ :=
                          transition_ok_inv s (mdKeyOf docId oldv) .archived [] false now s₁ htr1
                        have hall1 : ∀ v, isFinalVersionB s₁ docId v = false := by
                          rw [hs1eq]
                          refine no_final_after_archive_md s docId oldv _ hinv holdfin ?_
                          rw [buildTags_stage]
                          decide
                        obtain ⟨cur2, hg2, hs2eq⟩ :=
                          transition_ok_inv s₁ (jsonKeyOf docId oldv) .archived [] false now s₂x htr2
                        have hall2 : ∀ v, isFinalVersionB s₂x docId v = false := by
                          rw [hs2eq]
                          exact no_final_preserved_json s₁ docId docId oldv _ hall1
                        intro s2 hs2
                        rw [hat] at hs2
                        simp only [List.mem_cons, List.not_mem_nil, or_false] at hs2
                        rcases hs2 with rfl | rfl
                        · exact atMostOne_of_no_final _ docId hall1
                        · exact atMostOne_of_no_final _ docId hall2
                  · rename_i holdeq
                    have hpair := Except.ok.inj heqarch
                    have hat : archiveTrace = [] := (congrArg Prod.fst hpair).symm
                    intro s2 hs2
                    rw [hat] at hs2
                    cases hs2
                · rename_i hcf
                  have hpair := Except.ok.inj heqarch
                  have hat : archiveTrace = [] := (congrArg Prod.fst hpair).symm
                  intro s2 hs2
                  rw [hat] at hs2
                  cases hs2
              intro s2 hs2
              rw [htrace] at hs2
              rcases List.mem_cons.mp hs2 with h | h
              · rw [h]
                exact hinv
              · rcases List.mem_append.mp h with h | h
                · exact harchinv s2 h
                · simp only [List.mem_cons, List.not_mem_nil, or_false] at h
                  rcases h with rfl | rfl | rfl
                  · exact atMostOne_of_only _ docId version honly3
                  · exact atMostOne_of_only _ docId version honly4
                  · exact atMostOne_of_only _ docId version honly5


/-- Witness for C1: approving the draft version v2 of a document with no FINAL
version succeeds, and every store in the call's trace keeps the invariant. -/
theorem approve_preserves_at_most_one_final_witness :
    ([("processed/d/v2/output.md", (⟨"m", [("stage", "draft"), ("created_at", "t")]⟩ : S3Object)),
      ("processed/d/v2/output.json", ⟨"j", [("stage", "draft"), ("created_at", "t")]⟩)] : Store).length ≤ 1000 ∧
    noSlash "d" = true ∧
    wellFormedFor [("processed/d/v2/output.md", (⟨"m", [("stage", "draft"), ("created_at", "t")]⟩ : S3Object)),
      ("processed/d/v2/output.json", ⟨"j", [("stage", "draft"), ("created_at", "t")]⟩)] "d" = true ∧
    atMostOneFinal [("processed/d/v2/output.md", (⟨"m", [("stage", "draft"), ("created_at", "t")]⟩ : S3Object)),
      ("processed/d/v2/output.json", ⟨"j", [("stage", "draft"), ("created_at", "t")]⟩)] "d" ∧
    approve_document_version [("processed/d/v2/output.md", (⟨"m", [("stage", "draft"), ("created_at", "t")]⟩ : S3Object)),
      ("processed/d/v2/output.json", ⟨"j", [("stage", "draft"), ("created_at", "t")]⟩)] "d" "v2" [] "T" =
      .ok [[("processed/d/v2/output.md", (⟨"m", [("stage", "draft"), ("created_at", "t")]⟩ : S3Object)),
        ("processed/d/v2/output.json", ⟨"j", [("stage", "draft"), ("created_at", "t")]⟩)],
       [("processed/d/v2/output.md", ⟨"m", [("stage", "final"), ("state_changed_at", "T"),
          ("previous_stage", "draft"), ("meta_approved_at", "T")]⟩),
        ("processed/d/v2/output.json", ⟨"j", [("stage", "draft"), ("created_at", "t")]⟩)],
       [("processed/d/v2/output.md", ⟨"m", [("stage", "final"), ("state_changed_at", "T"),
          ("previous_stage", "draft"), ("meta_approved_at", "T")]⟩),
        ("processed/d/v2/output.json", ⟨"j", [("stage", "final"), ("state_changed_at", "T"),
          ("previous_stage", "draft"), ("meta_approved_at", "T")]⟩)],
       [("processed/d/v2/output.md", ⟨"m", [("stage", "final"), ("state_changed_at", "T"),
          ("previous_stage", "draft"), ("meta_approved_at", "T")]⟩),
        ("processed/d/v2/output.json", ⟨"j", [("stage", "final"), ("state_changed_at", "T"),
          ("previous_stage", "draft"), ("meta_approved_at", "T")]⟩),
        ("processed/d/current_version.txt", ⟨"v2", [("stage", "metadata"), ("doc_id", "d"),
          ("points_to", "v2")]⟩)]] ∧
    ∀ s2 ∈ ([[("processed/d/v2/output.md", (⟨"m", [("stage", "draft"), ("created_at", "t")]⟩ : S3Object)),
        ("processed/d/v2/output.json", ⟨"j", [("stage", "draft"), ("created_at", "t")]⟩)],
       [("processed/d/v2/output.md", ⟨"m", [("stage", "final"), ("state_changed_at", "T"),
          ("previous_stage", "draft"), ("meta_approved_at", "T")]⟩),
        ("processed/d/v2/output.json", ⟨"j", [("stage", "draft"), ("created_at", "t")]⟩)],
       [("processed/d/v2/output.md", ⟨"m", [("stage", "final"), ("state_changed_at", "T"),
          ("previous_stage", "draft"), ("meta_approved_at", "T")]⟩),
        ("processed/d/v2/output.json", ⟨"j", [("stage", "final"), ("state_changed_at", "T"),
          ("previous_stage", "draft"), ("meta_approved_at", "T")]⟩)],
       [("processed/d/v2/output.md", ⟨"m", [("stage", "final"), ("state_changed_at", "T"),
          ("previous_stage", "draft"), ("meta_approved_at", "T")]⟩),
        ("processed/d/v2/output.json", ⟨"j", [("stage", "final"), ("state_changed_at", "T"),
          ("previous_stage", "draft"), ("meta_approved_at", "T")]⟩),
        ("processed/d/current_version.txt", ⟨"v2", [("stage", "metadata"), ("doc_id", "d"),
          ("points_to", "v2")]⟩)]] : List Store), atMostOneFinal s2 "d" :=
  have hinv : atMostOneFinal [("processed/d/v2/output.md", (⟨"m", [("stage", "draft"), ("created_at", "t")]⟩ : S3Object)),
      ("processed/d/v2/output.json", ⟨"j", [("stage", "draft"), ("created_at", "t")]⟩)] "d" :=
    atMostOne_of_no_final _ _ (by
      intro v
      unfold isFinalVersionB
      simp only [lookupObj]
      split_ifs <;> rfl)
  ⟨by decide, by decide, by decide, hinv, by rfl,
    approve_preserves_at_most_one_final [("processed/d/v2/output.md", (⟨"m", [("stage", "draft"), ("created_at", "t")]⟩ : S3Object)),
      ("processed/d/v2/output.json", ⟨"j", [("stage", "draft"), ("created_at", "t")]⟩)] "d" "v2" [] "T"
      [[("processed/d/v2/output.md", (⟨"m", [("stage", "draft"), ("created_at", "t")]⟩ : S3Object)),
        ("processed/d/v2/output.json", ⟨"j", [("stage", "draft"), ("created_at", "t")]⟩)],
       [("processed/d/v2/output.md", ⟨"m", [("stage", "final"), ("state_changed_at", "T"),
          ("previous_stage", "draft"), ("meta_approved_at", "T")]⟩),
        ("processed/d/v2/output.json", ⟨"j", [("stage", "draft"), ("created_at", "t")]⟩)],
       [("processed/d/v2/output.md", ⟨"m", [("stage", "final"), ("state_changed_at", "T"),
          ("previous_stage", "draft"), ("meta_approved_at", "T")]⟩),
        ("processed/d/v2/output.json", ⟨"j", [("stage", "final"), ("state_changed_at", "T"),
          ("previous_stage", "draft"), ("meta_approved_at", "T")]⟩)],
       [("processed/d/v2/output.md", ⟨"m", [("stage", "final"), ("state_changed_at", "T"),
          ("previous_stage", "draft"), ("meta_approved_at", "T")]⟩),
        ("processed/d/v2/output.json", ⟨"j", [("stage", "final"), ("state_changed_at", "T"),
          ("previous_stage", "draft"), ("meta_approved_at", "T")]⟩),
        ("processed/d/current_version.txt", ⟨"v2", [("stage", "metadata"), ("doc_id", "d"),
          ("points_to", "v2")]⟩)]]
      (by decide) (by decide) (by decide) hinv (by rfl)⟩

end Bodega
